import Mathlib

/-!
Shallow embedding of the covimerage profile parser, function-to-script mapper and
profile merger (src/covimerage/__init__.py), together with theorems settling the
frozen claims about it.

Modelling conventions:
* Python `dict` values become insertion-ordered association lists (`PyDict`) whose
  update keeps the position of an existing key, as CPython does.
* Python `set` values become insertion-ordered duplicate-free lists; CPython's set
  iteration order is unspecified, and no theorem below depends on the order chosen.
* Python `int` becomes `Int`; line numbers and counts are `Int` exactly as in the
  source.  Python `float` time fields become `Rat`: the claims never depend on
  rounding of time arithmetic, only on presence/absence and decimal parsing.
* Exceptions become `Except PyErr`; an uncaught Python exception is an `.error`
  result.  Calls to the logger become entries appended to an explicit log.
* The input stream is a list of the physical lines of the profile, without their
  trailing newline.  In `Profile._parse` only the main loop strips `'\r\n'`; the
  inner readers (`skip_to_count_header` and the function-header loop) look at raw
  lines, but every test they perform (`startswith`, slicing before the final
  colon) is insensitive to the trailing newline, and the guard
  `if not next_line: break` can never fire on a line-based stream (a blank line
  arrives as `"\n"`, and end of stream raises StopIteration instead), so the
  newline-free model is exact.
-/

namespace Covimerage

/-- Decidable equality on `Except` results, so that concrete runs of the
modelled code can be checked by `decide`. -/
instance {ε α : Type} [DecidableEq ε] [DecidableEq α] : DecidableEq (Except ε α) := fun a b =>
  match a, b with
  | .error e, .error e2 =>
      if h : e = e2 then .isTrue (by rw [h]) else .isFalse (by intro hc; cases hc; exact h rfl)
  | .ok x, .ok y =>
      if h : x = y then .isTrue (by rw [h]) else .isFalse (by intro hc; cases hc; exact h rfl)
  | .error _, .ok _ => .isFalse (by intro hc; cases hc)
  | .ok _, .error _ => .isFalse (by intro hc; cases hc)

/-- Python exception kinds that can escape from the modelled code. -/
inductive PyErr
  | keyError
  | valueError
  | attributeError
  | assertionError
  | stopIteration
deriving DecidableEq, Repr

/-- Messages emitted through the logger by the modelled code, identified by call site. -/
inductive LogMsg
  | warnCountTimes        -- 'Could not parse count/times ...' (Profile._parse)
  | warnMultiAnon         -- 'Found multiple sources for anonymous function ...'
  | debugAlreadyMapped    -- 'Found already mapped dict function again ...'
  | warnMultiFunc         -- 'Found multiple sources for function ...'
  | warnNoScriptLine      -- 'Could not find script line for function ...'
  | warnLineMismatch      -- 'Script line does not match function line ...'
  | errNoSource           -- 'Could not find source for function ...'
deriving DecidableEq, Repr

/-- Insertion-ordered association list standing for a Python dict. -/
abbrev PyDict (κ α : Type) := List (κ × α)

/-- Lookup, Python `d[k]` / `d.get(k)`. -/
def dictGet [DecidableEq κ] : PyDict κ α → κ → Option α
  | [], _ => none
  | (k', v) :: rest, k => if k' = k then some v else dictGet rest k

/-- Update or append, Python `d[k] = v`: an existing key keeps its position. -/
def dictSet [DecidableEq κ] : PyDict κ α → κ → α → PyDict κ α
  | [], k, v => [(k, v)]
  | (k', v') :: rest, k, v =>
      if k' = k then (k', v) :: rest else (k', v') :: dictSet rest k v

/-- Python `d.setdefault(k, []).append(x)`. -/
def dictAppendAt [DecidableEq κ] (d : PyDict κ (List α)) (k : κ) (x : α) :
    PyDict κ (List α) :=
  match dictGet d k with
  | some xs => dictSet d k (xs ++ [x])
  | none => d ++ [(k, [x])]

/-- Key list of a dict, in insertion order. -/
def dictKeys (d : PyDict κ α) : List κ := d.map Prod.fst

/-- Python `s.add(x)` on a set modelled as a duplicate-free list. -/
def pySetAdd [DecidableEq α] (s : List α) (x : α) : List α :=
  if x ∈ s then s else s ++ [x]

/-- Characters matched by the regex class `\s` (ASCII part; profile lines contain
no other whitespace). -/
def pyIsSpace (c : Char) : Bool :=
  c = ' ' || c = '\t' || c = '\n' || c = '\r' || c = '\x0b' || c = '\x0c'

/-- Python `s.startswith(pre)`, implemented structurally so that concrete runs
compute definitionally. -/
def startswith (s pre : String) : Bool := pre.data.isPrefixOf s.data

/-- Python slice `s[a:b]` for nonnegative bounds. -/
def pySliceNN (s : String) (a b : Nat) : String := ⟨(s.data.drop a).take (b - a)⟩

/-- Python slice `s[a:]` for a nonnegative bound. -/
def pyDrop (s : String) (a : Nat) : String := ⟨s.data.drop a⟩

/-- Python slice `s[a:-b]` (nonnegative `a`, negative upper bound `-b`). -/
def pySliceNegEnd (s : String) (a b : Nat) : String :=
  ⟨(s.data.take (s.data.length - b)).drop a⟩

/-- Python `line.rstrip('\r\n')`. -/
def rstripCRLF (s : String) : String :=
  ⟨(s.data.reverse.dropWhile (fun c => c = '\r' || c = '\n')).reverse⟩

/-- Numeric value of a digit string. -/
def digitsToNat (ds : List Char) : Nat :=
  ds.foldl (fun a c => a * 10 + (c.toNat - '0'.toNat)) 0

/-- Python `int(s)` on the grammar `[ws][+|-]digits[ws]`.  (CPython also accepts
underscores between digits; profile count fields never contain them.)  `none`
models a ValueError. -/
def pyInt (s : String) : Option Int :=
  let t := ((s.data.dropWhile pyIsSpace).reverse.dropWhile pyIsSpace).reverse
  match t with
  | '-' :: ds => if ds ≠ [] ∧ ds.all Char.isDigit then some (-(digitsToNat ds : Int)) else none
  | '+' :: ds => if ds ≠ [] ∧ ds.all Char.isDigit then some (digitsToNat ds : Int) else none
  | ds => if ds ≠ [] ∧ ds.all Char.isDigit then some (digitsToNat ds : Int) else none

/-- Magnitude part of a Python float literal: `digits`, `digits.`, `.digits` or
`digits.digits`. -/
def pyFloatMag (t : List Char) : Option Rat :=
  let intPart := t.takeWhile (fun c => c ≠ '.')
  let rest := t.dropWhile (fun c => c ≠ '.')
  match rest with
  | [] =>
      if t ≠ [] ∧ t.all Char.isDigit then some (digitsToNat t : Rat) else none
  | '.' :: frac =>
      if (intPart.all Char.isDigit ∧ frac.all Char.isDigit) ∧
          (intPart ≠ [] ∨ frac ≠ []) then
        some ((digitsToNat intPart : Rat) + (digitsToNat frac : Rat) / (10 : Rat) ^ frac.length)
      else none
  | _ => none

/-- Python `float(s)` on the decimal grammar `[ws][+|-]magnitude[ws]` (no
exponent, infinity or nan forms, which profile time fields never use).  `none`
models a ValueError. -/
def pyFloat (s : String) : Option Rat :=
  let t := ((s.data.dropWhile pyIsSpace).reverse.dropWhile pyIsSpace).reverse
  match t with
  | '-' :: ds => (pyFloatMag ds).map (fun q => -q)
  | '+' :: ds => pyFloatMag ds
  | ds => pyFloatMag ds

/-- The function `parse_count_and_times`: fixed-column decoding of a profile data
line.  Count is columns 0-5, total time 8-16, self time 19-27; an empty count
field (only possible for the empty line) returns early with `(0, None, None)`. -/
def parse_count_and_times (line : String) :
    Except PyErr (Option Int × Option Rat × Option Rat) := do
  let countF := pySliceNN line 0 5
  if countF = "" then
    return (some 0, none, none)
  let count ←
    if countF = "     " then pure (none : Option Int)
    else match pyInt countF with
      | some n => pure (some n)
      | none => throw .valueError
  let totalF := pySliceNN line 8 16
  let total ←
    if totalF = "        " then pure (none : Option Rat)
    else match pyFloat totalF with
      | some q => pure (some q)
      | none => throw .valueError
  let selfF := pySliceNN line 19 27
  let selfT ←
    if selfF = "        " then pure (none : Option Rat)
    else match pyFloat selfF with
      | some q => pure (some q)
      | none => throw .valueError
  return (count, total, selfT)

/-- Python truthiness of an optional integer (`None` and `0` are falsy). -/
def truthyInt : Option Int → Bool
  | none => false
  | some n => n ≠ 0

/-- Python truthiness of an optional rational (`None` and `0.0` are falsy). -/
def truthyRat : Option Rat → Bool
  | none => false
  | some q => q ≠ 0

/-- The regex `RE_CONTINUING_LINE = r'\s*\\'` used with `.match`: on success
returns `text[m.end():]`, the remainder after the backslash. -/
def matchContinuing (s : String) : Option String :=
  match s.data.dropWhile pyIsSpace with
  | '\\' :: rest => some ⟨rest⟩
  | _ => none

/-- Whether `RE_CONTINUING_LINE.match(s)` succeeds. -/
def isContinuing (s : String) : Bool := (matchContinuing s).isSome

/-- Modelled from the spec: `is_executable_line` lives in `covimerage/utils.py`,
which is not under `src/`.  Spec section 4.1: true iff, after removing leading
whitespace, the line is neither empty, nor a comment (first non-blank character
is a double quote), nor a line continuation (first non-blank character is a
backslash). -/
def is_executable_line (line : String) : Bool :=
  match line.data.dropWhile pyIsSpace with
  | [] => false
  | c :: _ => ¬(c = '"' || c = '\\')

/-! ## Data model (attrs classes `Line`, `Script`, `Function`, `Profile`) -/

/-- A source code line (class `Line`). -/
structure Line where
  line : String
  count : Option Int := none
  total_time : Option Rat := none
  self_time : Option Rat := none
deriving DecidableEq, Repr

/-- A sourced script (class `Script`).  `lines` maps 1-based line numbers to
`Line` records; `dict_functions` and `mapped_dict_functions` are sets of line
numbers; `func_to_lnums` maps a normalised function name to the line numbers
defining it. -/
structure Script where
  path : String
  lines : PyDict Int Line := []
  dict_functions : List Int := []
  mapped_dict_functions : List Int := []
  func_to_lnums : PyDict String (List Int) := []
  sourced_count : Option Int := none
deriving DecidableEq, Repr

/-- A profiled function (class `Function`).  `source` is the class attribute
that `_parse` may set from a `Defined:` header; it holds the index of the
declared script in `Profile.scripts` plus the defining line number (the Python
object reference to the script becomes an index).  attrs equality — used by
`list.remove` in `map_functions` — compares only the four attr fields, not
`source`. -/
structure Function where
  name : String
  total_time : Option Rat := none
  self_time : Option Rat := none
  lines : PyDict Int Line := []
  source : Option (Nat × Int) := none
deriving DecidableEq, Repr

/-- One parsed profile (class `Profile`), with the logger's message stream made
explicit.  `scripts_by_fname` maps a path to the index of its `Script` in
`scripts`; `anonymous_functions` memoises anonymous resolutions as
(script index, line number). -/
structure Profile where
  scripts : List Script := []
  scripts_by_fname : PyDict String Nat := []
  anonymous_functions : PyDict String (Nat × Int) := []
  log : List LogMsg := []
deriving DecidableEq, Repr

/-- Keywords accepted by `RE_FUNC_PREFIX`'s nested optional groups, longest
first — the order in which the backtracking regex tries them. -/
def funcKws : List String := ["function", "functio", "functi", "funct", "func", "fun", "fu"]

/-- Strip an exact literal from the front of a character list. -/
def dropLit : List Char → List Char → Option (List Char)
  | [], t => some t
  | c :: ps, c' :: ts => if c = c' then dropLit ps ts else none
  | _ :: _, [] => none

/-- After a keyword candidate: the regex's `!?\s+` — an optional bang then at
least one whitespace character; returns the text after the greedy whitespace
run (the match end). -/
def afterKw (t : List Char) : Option (List Char) :=
  let t1 := match t with
    | '!' :: r => r
    | _ => t
  match t1 with
  | c :: _ => if pyIsSpace c then some (t1.dropWhile pyIsSpace) else none
  | [] => none

/-- Try the keyword candidates in backtracking order. -/
def tryKws : List String → List Char → Option (List Char)
  | [], _ => none
  | kw :: rest, t =>
      match dropLit kw.data t with
      | some t' =>
          match afterKw t' with
          | some r => some r
          | none => tryKws rest t
      | none => tryKws rest t

/-- The regex `RE_FUNC_PREFIX = r'^\s*fu(?:n(?:(?:c(?:t(?:i(?:o(?:n)?)?)?)?)?)?)?!?\s+'`
used with `re.match`: on success returns `line[m.end():]`. -/
def matchFuncHeaderRest (line : String) : Option String :=
  (tryKws funcKws (line.data.dropWhile pyIsSpace)).map (fun r => (⟨r⟩ : String))

/-- The method `Script.parse_function`: detect a function-definition header on a
line, record dict-function sites founded on a dot in the raw name, normalise
`<SID>`/`g:` prefixes and index the defining line number under the name. -/
def Script.parse_function (s : Script) (lnum : Int) (line : String) : Script :=
  match matchFuncHeaderRest line with
  | none => s
  | some rest =>
      let f : String := ⟨rest.data.takeWhile (fun c => c ≠ '(')⟩
      let s :=
        if f.data.contains '.' then
          { s with dict_functions := pySetAdd s.dict_functions lnum }
        else s
      let f :=
        if startswith f "<SID>" then "s:" ++ pyDrop f 5
        else if startswith f "g:" then pyDrop f 2
        else f
      { s with func_to_lnums := dictAppendAt s.func_to_lnums f lnum }

/-- The regex `RE_SNR_PREFIX = r'^<SNR>\d+_'` used with `.match`: on success the
name is rewritten to `'s:' + funcname[m.end():]` by `find_func_in_source`. -/
def matchSnrRest (name : String) : Option String :=
  match dropLit "<SNR>".data name.data with
  | some t =>
      let ds := t.takeWhile Char.isDigit
      match t.dropWhile Char.isDigit with
      | '_' :: rest => if ds ≠ [] then some ⟨rest⟩ else none
      | _ => none
  | none => none

/-- Python `str.isdigit` (ASCII digits; profile function names use no other
digit characters). -/
def pyIsDigitStr (s : String) : Bool :=
  s ≠ "" && s.data.all Char.isDigit

/-! ## Termination helpers: every line-number key of a dict is bounded -/

/-- An upper bound for the keys of an integer-keyed dict. -/
def maxKeyInt (d : PyDict Int α) : Int :=
  d.foldl (fun m kv => max m kv.1) 0

theorem le_foldl_max (d : PyDict Int α) (m : Int) :
    m ≤ d.foldl (fun m kv => max m kv.1) m := by
  induction d generalizing m with
  | nil => exact le_refl m
  | cons kv rest ih =>
      calc m ≤ max m kv.1 := le_max_left _ _
        _ ≤ rest.foldl (fun m kv => max m kv.1) (max m kv.1) := ih _

theorem foldl_max_mono (d : PyDict Int α) {m m' : Int} (h : m ≤ m') :
    d.foldl (fun m kv => max m kv.1) m ≤ d.foldl (fun m kv => max m kv.1) m' := by
  induction d generalizing m m' with
  | nil => exact h
  | cons kv rest ih => exact ih (max_le_max_right _ h)

theorem dictGet_le_maxKeyInt {d : PyDict Int α} {k : Int} {v : α}
    (h : dictGet d k = some v) : k ≤ maxKeyInt d := by
  induction d with
  | nil => simp [dictGet] at h
  | cons kv rest ih =>
      unfold dictGet at h
      unfold maxKeyInt List.foldl
      by_cases hk : kv.1 = k
      · calc k = kv.1 := hk.symm
          _ ≤ max 0 kv.1 := le_max_right _ _
          _ ≤ rest.foldl (fun m kv => max m kv.1) (max 0 kv.1) := le_foldl_max _ _
      · simp only [hk, if_false] at h
        calc k ≤ maxKeyInt rest := ih h
          _ ≤ rest.foldl (fun m kv => max m kv.1) (max 0 kv.1) :=
            foldl_max_mono _ (le_max_left _ _)

/-! ## FunctionMapper: `source_contains_func`, anonymous resolution, `map_function` -/

/-- The inner `while True` loop of `source_contains_func`: join the script's
continuation lines onto `script_source` until it matches `target` (break,
returning the advanced `script_lnum`), fails to match (`return False`, here
`some`/`none`), or the peeked line is missing (an uncaught KeyError — this loop
has no try/except).

The first argument is an iteration bound making the recursion structural (so
that concrete runs compute): each continuing iteration needs the key
`script_lnum + f_lnum + 1` present, hence (`dictGet_le_maxKeyInt`) at most
`maxKeyInt slines + 2 - (script_lnum + f_lnum)` iterations can occur, and the
wrapper below passes exactly that.  Whenever the bound reaches zero the peeked
key exceeds every key of the dict, so the zero case is the very
peek-is-missing KeyError the loop would take. -/
def sccJoinAux (slines : PyDict Int Line) (target : String) :
    Nat → Int → Int → String → Except PyErr (Option Int)
  | 0, _, _, _ => .error .keyError
  | r + 1, script_lnum, f_lnum, script_source =>
      match dictGet slines (script_lnum + f_lnum + 1) with
      | none => .error .keyError
      | some peek =>
          match matchContinuing peek.line with
          | some tail =>
              sccJoinAux slines target r (script_lnum + 1) f_lnum (script_source ++ tail)
          | none => if script_source = target then .ok (some script_lnum) else .ok none

/-- Entry point of the joining loop with its exact iteration bound. -/
def sccJoin (slines : PyDict Int Line) (target : String)
    (script_lnum f_lnum : Int) (script_source : String) :
    Except PyErr (Option Int) :=
  sccJoinAux slines target ((maxKeyInt slines + 2) - (script_lnum + f_lnum)).toNat
    script_lnum f_lnum script_source

/-- The `for [f_lnum, f_line] in func.lines.items()` loop of
`source_contains_func`, threading the locally mutated `script_lnum`. -/
def sccLoop (slines : PyDict Int Line) :
    List (Int × Line) → Int → Except PyErr Bool
  | [], _ => .ok true
  | (f_lnum, f_line) :: rest, script_lnum =>
      match dictGet slines (script_lnum + f_lnum) with
      | none => .error .keyError
      | some s_line =>
          if s_line.line = f_line.line then sccLoop slines rest script_lnum
          else
            match sccJoin slines f_line.line script_lnum f_lnum s_line.line with
            | .error e => .error e
            | .ok none => .ok false
            | .ok (some script_lnum') => sccLoop slines rest script_lnum'

/-- The static method `Profile.source_contains_func`. -/
def source_contains_func (script : Script) (script_lnum : Int) (func : Function) :
    Except PyErr Bool :=
  sccLoop script.lines func.lines script_lnum

/-- The `while` loop of `_get_anon_func_script_line` comparing one candidate's
joined script text against the function body.  A missing script or function
line is an uncaught KeyError. -/
def anonScanLoopAux (slines flines : PyDict Int Line) (len_script : Int) (len_func : Int) :
    Nat → Int → String → Int → Except PyErr Bool
  | 0, _, _, _ => .ok true
  | r + 1, script_lnum, script_line, func_lnum =>
      if script_lnum ≤ len_script ∧ func_lnum < len_func then
        let script_lnum' := script_lnum + 1
        match dictGet slines script_lnum' with
        | none => .error .keyError
        | some nextL =>
            match matchContinuing nextL.line with
            | some tail =>
                anonScanLoopAux slines flines len_script len_func r script_lnum'
                  (script_line ++ tail) func_lnum
            | none =>
                let func_lnum' := func_lnum + 1
                match dictGet flines func_lnum' with
                | none => .error .keyError
                | some fl =>
                    if script_line ≠ fl.line then .ok false
                    else anonScanLoopAux slines flines len_script len_func r script_lnum'
                      nextL.line func_lnum'
      else .ok true

/-- Entry point of the candidate-comparison loop.  `script_lnum` increases by
one each iteration and the loop runs only while `script_lnum ≤ len_script`, so
`len_script + 1 - script_lnum` bounds the iterations; when the bound is zero
the `while` guard is false and the zero case returns `True` exactly like the
guard exit. -/
def anonScanLoop (slines flines : PyDict Int Line) (len_script : Int) (len_func : Int)
    (script_lnum : Int) (script_line : String) (func_lnum : Int) :
    Except PyErr Bool :=
  anonScanLoopAux slines flines len_script len_func
    ((len_script + 1) - script_lnum).toNat script_lnum script_line func_lnum

/-- One candidate dict-function site of `_get_anon_func_script_line`: body
starts at `lnum + 1`; reading the first line raises KeyError when the site is
the script's last line. -/
def anonCandidate (s : Script) (f : Function) (lnum : Int) : Except PyErr Bool :=
  let script_lnum := lnum + 1
  match dictGet s.lines script_lnum with
  | none => .error .keyError
  | some sl =>
      anonScanLoop s.lines f.lines (s.lines.length : Int) (f.lines.length : Int)
        script_lnum sl.line 0

/-- The candidate-collection phase of `_get_anon_func_script_line`: scan every
script's dict-function sites, in order, collecting `(script index, lnum)` for
each match. -/
def anonScan (p : Profile) (f : Function) : Except PyErr (List (Nat × Int)) :=
  p.scripts.enum.foldlM
    (fun found (si, s) =>
      s.dict_functions.foldlM
        (fun found lnum => do
          let ok ← anonCandidate s f lnum
          pure (if ok then found ++ [(si, lnum)] else found))
        found)
    []

/-- The `for s, lnum in found` loop of `_get_anon_func_script_line`: skip
already-mapped sites (logging at debug level), consume and return the first
fresh one, and fall back to `found[0]` without consuming anything.  The
out-of-range branch is unreachable: indices in `found` come from enumerating
`p.scripts`. -/
def anonPickLoop (p : Profile) (found0 : Nat × Int) :
    List (Nat × Int) → Profile × Option (Nat × Int)
  | [] => (p, some found0)
  | (si, lnum) :: rest =>
      match p.scripts.get? si with
      | none => (p, none)
      | some s =>
          if lnum ∈ s.mapped_dict_functions then
            anonPickLoop { p with log := p.log ++ [.debugAlreadyMapped] } found0 rest
          else
            let s' := { s with mapped_dict_functions := pySetAdd s.mapped_dict_functions lnum }
            ({ p with scripts := p.scripts.set si s' }, some (si, lnum))

/-- The method `Profile._get_anon_func_script_line`. -/
def Profile.get_anon_func_script_line_impl (p : Profile) (f : Function) :
    Except PyErr (Profile × Option (Nat × Int)) := do
  let found ← anonScan p f
  match found with
  | [] => .ok (p, none)
  | f0 :: rest =>
      let p := if rest ≠ [] then { p with log := p.log ++ [.warnMultiAnon] } else p
      .ok (anonPickLoop p f0 found)

/-- The method `Profile.get_anon_func_script_line`: memoised wrapper around
`_get_anon_func_script_line`, keyed by function name. -/
def Profile.get_anon_func_script_line (p : Profile) (f : Function) :
    Except PyErr (Profile × Option (Nat × Int)) := do
  match dictGet p.anonymous_functions f.name with
  | some r => .ok (p, some r)
  | none =>
      let (p, f_info) ← p.get_anon_func_script_line_impl f
      match f_info with
      | some (si, lnum) =>
          let p := { p with
            anonymous_functions := dictSet p.anonymous_functions f.name (si, lnum) }
          .ok (p, some (si, lnum))
      | none => .ok (p, none)

/-- The method `Profile.find_func_in_source`. -/
def Profile.find_func_in_source (p : Profile) (f : Function) :
    Except PyErr (Profile × Option (Nat × Int)) := do
  if pyIsDigitStr f.name then p.get_anon_func_script_line f
  else
    let funcname :=
      match matchSnrRest f.name with
      | some rest => "s:" ++ rest
      | none => f.name
    let found ← p.scripts.enum.foldlM
      (fun found (si, script) =>
        match dictGet script.func_to_lnums funcname with
        | none => pure found
        | some lnums =>
            lnums.foldlM
              (fun found script_lnum => do
                let ok ← source_contains_func script script_lnum f
                pure (if ok then found ++ [(si, script_lnum)] else found))
              found)
      ([] : List (Nat × Int))
    match found with
    | [] => .ok (p, none)
    | f0 :: rest =>
        let p := if rest ≠ [] then { p with log := p.log ++ [.warnMultiFunc] } else p
        .ok (p, some f0)

/-- The continuation-reconciliation `while True` loop in `map_function`'s fold:
unlike `source_contains_func` it catches the KeyError of the peek, falling
through to the equality test.  Returns the advanced `script_lnum` on a match,
`none` for the mismatch warning and `return False`. -/
def mfJoinAux (slines : PyDict Int Line) (target : String) :
    Nat → Int → Int → String → Option Int
  | 0, script_lnum, _, script_source =>
      if script_source = target then some script_lnum else none
  | r + 1, script_lnum, f_lnum, script_source =>
      match dictGet slines (script_lnum + f_lnum + 1) with
      | some peek =>
          match matchContinuing peek.line with
          | some tail => mfJoinAux slines target r (script_lnum + 1) f_lnum (script_source ++ tail)
          | none => if script_source = target then some script_lnum else none
      | none => if script_source = target then some script_lnum else none

/-- Entry point of `map_function`'s joining loop, with the same iteration bound
as `sccJoin`; at bound zero the peeked key exceeds every key of the dict, so
the zero case is exactly the caught-KeyError equality test. -/
def mfJoin (slines : PyDict Int Line) (target : String)
    (script_lnum f_lnum : Int) (script_source : String) : Option Int :=
  mfJoinAux slines target ((maxKeyInt slines + 2) - (script_lnum + f_lnum)).toNat
    script_lnum f_lnum script_source

/-- The `# Assign count to continued lines` loop of `map_function`: from
`i = s_lnum + 1` while `i < n`, copy the just-updated count onto consecutive
continuation lines.  Reading a gapped key is an uncaught KeyError. -/
def propagateCountAux (newCount : Option Int) (n : Int) :
    Nat → PyDict Int Line → Int → Except PyErr (PyDict Int Line)
  | 0, lines, _ => .ok lines
  | r + 1, lines, i =>
      if i < n then
        match dictGet lines i with
        | none => .error .keyError
        | some li =>
            if isContinuing li.line then
              propagateCountAux newCount n r (dictSet lines i { li with count := newCount }) (i + 1)
            else .ok lines
      else .ok lines

/-- Entry point of the propagation loop; `i` increases by one per iteration
under the guard `i < n`, so `n - i` bounds the iterations, and at bound zero
the guard is false and the zero case returns the dict unchanged exactly like
the guard exit. -/
def propagateCount (lines : PyDict Int Line) (newCount : Option Int) (n i : Int) :
    Except PyErr (PyDict Int Line) :=
  propagateCountAux newCount n (n - i).toNat lines i

/-- The `for [f_lnum, f_line] in f.lines.items()` fold of `map_function`,
threading the mutated `script_lnum` and the script being updated.  Returns the
method's boolean result plus the updated script and the warnings logged. -/
def mapFuncLinesLoop (script : Script) (items : List (Int × Line))
    (script_lnum : Int) (log : List LogMsg) :
    Except PyErr (Bool × Script × List LogMsg) :=
  match items with
  | [] => .ok (true, script, log)
  | (f_lnum, f_line) :: rest =>
      let s_lnum := script_lnum + f_lnum
      match dictGet script.lines s_lnum with
      | none => .ok (false, script, log ++ [.warnNoScriptLine])
      | some s_line =>
          let joinRes : Option Int :=
            if s_line.line = f_line.line then some script_lnum
            else mfJoin script.lines f_line.line script_lnum f_lnum s_line.line
          match joinRes with
          | none => .ok (false, script, log ++ [.warnLineMismatch])
          | some script_lnum' => do
              let (script, sLineCur) ←
                match f_line.count with
                | some fcount => do
                    let script := script.parse_function (script_lnum' + f_lnum) f_line.line
                    let newCount : Option Int :=
                      if truthyInt s_line.count then some (s_line.count.getD 0 + fcount)
                      else some fcount
                    let lines := dictSet script.lines s_lnum { s_line with count := newCount }
                    let n : Int := (lines.length : Int)
                    let lines ← propagateCount lines newCount n (s_lnum + 1)
                    pure ({ script with lines := lines }, { s_line with count := newCount })
                | none => pure (script, s_line)
              let sLineCur :=
                if truthyRat f_line.self_time then
                  let newSelf :=
                    if truthyRat sLineCur.self_time then
                      some (sLineCur.self_time.getD 0 + f_line.self_time.getD 0)
                    else f_line.self_time
                  { sLineCur with self_time := newSelf }
                else sLineCur
              let sLineCur :=
                if truthyRat f_line.total_time then
                  let newTotal :=
                    if truthyRat sLineCur.total_time then
                      some (sLineCur.total_time.getD 0 + f_line.total_time.getD 0)
                    else f_line.total_time
                  { sLineCur with total_time := newTotal }
                else sLineCur
              let script := { script with lines := dictSet script.lines s_lnum sLineCur }
              mapFuncLinesLoop script rest script_lnum' log

/-- The method `Profile.map_function`.  The out-of-range script index branch is
unreachable for states built by the parser (a `Function.source` index always
points into `scripts`). -/
def Profile.map_function (p : Profile) (f : Function) :
    Except PyErr (Bool × Profile) := do
  let (p, src) ←
    match f.source with
    | some (si, lnum) => pure (p, some (si, lnum))
    | none => p.find_func_in_source f
  match src with
  | none => .ok (false, p)
  | some (si, script_lnum) =>
      match p.scripts.get? si with
      | none => .error .keyError
      | some script => do
          let (ok, script', msgs) ← mapFuncLinesLoop script f.lines script_lnum []
          .ok (ok, { p with scripts := p.scripts.set si script', log := p.log ++ msgs })

/-- Python dict equality (same keys, equal values, insertion order ignored),
assuming duplicate-free keys as every dict built by the code has. -/
def dictPyEq [DecidableEq κ] [DecidableEq α] (d e : PyDict κ α) : Bool :=
  d.all (fun kv => decide (dictGet e kv.1 = some kv.2)) &&
    e.all (fun kv => decide (dictGet d kv.1 = some kv.2))

/-- attrs equality on `Function` as used by `functions.remove(f)`: compares the
four attr fields (`source` is a plain class attribute, not an attr field). -/
def fnPyEq (f g : Function) : Bool :=
  decide (f.name = g.name) && decide (f.total_time = g.total_time) &&
    decide (f.self_time = g.self_time) && dictPyEq f.lines g.lines

/-- Python `functions.remove(f)`: drop the first element equal to `f`. -/
def removeFirstFn : List Function → Function → List Function
  | [], _ => []
  | g :: rest, f => if fnPyEq g f then rest else g :: removeFirstFn rest f

theorem removeFirstFn_length_le (l : List Function) (f : Function) :
    (removeFirstFn l f).length ≤ l.length := by
  induction l with
  | nil => simp [removeFirstFn]
  | cons g rest ih =>
      unfold removeFirstFn
      split
      · simp only [List.length_cons]
        omega
      · simp only [List.length_cons]
        omega

/-- One pass of the `for f in functions` loop in `map_functions`: CPython's
list iterator is index based, so removing the just-mapped element makes the
iteration skip the element that slides into its slot.

The `Nat` argument makes the recursion structural: `i` grows by one per
iteration and the list never grows, so any bound `r ≥ fns.length - i` — which
the recursion preserves in every branch — keeps the `i < fns.length` guard as
the only live exit: when the bound is zero, `i ≥ fns.length` and the zero case
is exactly the iterator's exhaustion. -/
def passLoopAux : Nat → Profile → List Function → Nat →
    Except PyErr (Profile × List Function)
  | 0, p, fns, _ => .ok (p, fns)
  | r + 1, p, fns, i =>
      if h : i < fns.length then
        match p.map_function (fns.get ⟨i, h⟩) with
        | .error e => .error e
        | .ok (true, p') => passLoopAux r p' (removeFirstFn fns (fns.get ⟨i, h⟩)) (i + 1)
        | .ok (false, p') => passLoopAux r p' fns (i + 1)
      else .ok (p, fns)

/-- Entry point of one pass, with `fns.length` as the (sufficient) bound. -/
def passLoop (p : Profile) (fns : List Function) (i : Nat) :
    Except PyErr (Profile × List Function) :=
  passLoopAux (fns.length - i) p fns i

theorem passLoopAux_length_le (r : Nat) :
    ∀ (p : Profile) (fns : List Function) (i : Nat) {p' : Profile} {fns' : List Function},
      passLoopAux r p fns i = .ok (p', fns') → fns'.length ≤ fns.length := by
  induction r with
  | zero =>
      intro p fns i p' fns' h
      cases h
      exact le_refl _
  | succ r ih =>
      intro p fns i p' fns' h
      unfold passLoopAux at h
      by_cases hi : i < fns.length
      · rw [dif_pos hi] at h
        rcases hm : p.map_function (fns.get ⟨i, hi⟩) with _ | ⟨ok, p2⟩ <;> rw [hm] at h
        · cases h
        · cases ok
          · exact ih _ _ _ h
          · have h2 := ih _ _ _ h
            have h3 := removeFirstFn_length_le fns (fns.get ⟨i, hi⟩)
            omega
      · rw [dif_neg hi] at h
        cases h
        exact le_refl _

theorem passLoop_length_le (p : Profile) (fns : List Function) (i : Nat)
    {p' : Profile} {fns' : List Function}
    (h : passLoop p fns i = .ok (p', fns')) : fns'.length ≤ fns.length :=
  passLoopAux_length_le _ p fns i h

/-- The `while functions:` fixed-point loop of `map_functions`.  Again the
`Nat` argument is an iteration bound: every repetition strictly shrinks the
list, so a bound `r ≥ fns.length` is preserved, and at bound zero the list is
empty and the zero case coincides with the `while` guard's exit. -/
def mapFunctionsLoopAux : Nat → Profile → List Function →
    Except PyErr (Profile × List Function)
  | 0, p, fns => .ok (p, fns)
  | r + 1, p, fns =>
      if fns.isEmpty then .ok (p, fns)
      else
        match passLoop p fns 0 with
        | .error e => .error e
        | .ok (p', fns') =>
            if fns'.length = fns.length then .ok (p', fns')
            else mapFunctionsLoopAux r p' fns'

/-- Entry point of the fixed-point loop with its iteration bound. -/
def mapFunctionsLoop (p : Profile) (fns : List Function) :
    Except PyErr (Profile × List Function) :=
  mapFunctionsLoopAux fns.length p fns

/-- The method `Profile.map_functions`: run the fixed-point loop, then log an
error for every function whose source was never found. -/
def Profile.map_functions (p : Profile) (fns : List Function) :
    Except PyErr Profile := do
  let (p, leftover) ← mapFunctionsLoop p fns
  .ok { p with log := p.log ++ leftover.map (fun _ => LogMsg.errNoSource) }

/-! ## ProfileParser: `Profile._parse` as a one-line-per-step state machine

The Python loop reads extra physical lines inside the `SCRIPT` branch
(`next(file_object)` for the `Sourced` line, then `skip_to_count_header`) and
inside the `FUNCTION` branch (the header loop).  Here those inner readers are
extra modes of the machine, so each step consumes exactly one input line; a
pending inner read at end of input is the StopIteration the Python `next()`
raises there. -/

/-- Python `s.rpartition(sep)` helper: index of the last occurrence of `sep`. -/
def lastOcc (hay sep : List Char) : Option Nat :=
  (List.range (hay.length - sep.length + 1)).foldl
    (fun acc i => if (hay.drop i).take sep.length = sep then some i else acc) none

/-- Python `s.rpartition(sep)`. -/
def rpartition (s sep : String) : String × String × String :=
  match lastOcc s.data sep.data with
  | some i => (⟨s.data.take i⟩, sep, ⟨s.data.drop (i + sep.data.length)⟩)
  | none => ("", "", s)

/-- The regex `RE_SOURCED_TIMES = r'Sourced (\d+) time'` used with `.match`:
returns the captured count.  `none` models the AttributeError raised by
`m.group(1)` on a failed match. -/
def matchSourcedTimes (s : String) : Option Int :=
  match dropLit "Sourced ".data s.data with
  | some t =>
      let ds := t.takeWhile Char.isDigit
      match dropLit " time".data (t.dropWhile Char.isDigit) with
      | some _ => if ds ≠ [] then some (digitsToNat ds : Int) else none
      | none => none
  | none => none

/-- Splitting of a `    Defined:` header line into file part and line part: on
the last `:`, else on the last ` line `.  `os.path.expanduser` applied to the
file part is the identity here: the paths of this development are absolute, and
tilde expansion is environmental. -/
def definedParts (raw : String) : String × String :=
  let defined := pyDrop raw 13
  let colonSplit := rpartition defined ":"
  if colonSplit.1 = "" then
    let lineSplit := rpartition defined " line "
    (lineSplit.1, lineSplit.2.2)
  else (colonSplit.1, colonSplit.2.2)

/-- The `    Defined:` branch of the function-header loop: split the location,
look the script up in `scripts_by_fname` — an unknown path is an uncaught
KeyError — and record `(script, line)` on the Function. -/
def handleDefined (by_fname : PyDict String Nat) (f : Function) (raw : String) :
    Except PyErr Function := do
  let parts := definedParts raw
  match dictGet by_fname parts.1 with
  | none => .error .keyError
  | some si =>
      match pyInt parts.2 with
      | none => .error .valueError
      | some n => .ok { f with source := some (si, n) }

/-- Parser mode: `top` is the main `for line in file_object` loop; the other
modes are the pending inner `next(file_object)` readers. -/
inductive PMode
  | top
  | expectSourced (si : Nat)
  | skipCountScript
  | funcHeader
deriving DecidableEq, Repr

/-- State of `Profile._parse`: the profile being built, the local `functions`
list, the `in_script` index / `in_function` value, and the `lnum`/`plnum`
counters. -/
structure PState where
  prof : Profile := {}
  functions : List Function := []
  inScript : Option Nat := none
  inFunction : Option Function := none
  lnum : Int := 0
  plnum : Int := 0
  mode : PMode := .top
deriving DecidableEq, Repr

/-- Update the script at an index (the index is always valid for
parser-produced states, where `in_script` comes from appending). -/
def updateScriptAt (ss : List Script) (i : Nat) (g : Script → Script) : List Script :=
  match ss.get? i with
  | some s => ss.set i (g s)
  | none => ss

/-- A data line inside a script or function stanza (`if in_script or
in_function:` in `_parse`).  `line` has already been rstripped. -/
def dataLine (st : PState) (line : String) : Except PyErr PState :=
  let lnum := st.lnum + 1
  let st := { st with lnum := lnum }
  match parse_count_and_times line with
  | .error _ =>
      .ok { st with prof := { st.prof with log := st.prof.log ++ [.warnCountTimes] } }
  | .ok (count, total_time, self_time) =>
      let source_line := pyDrop line 28
      match st.inScript with
      | some si =>
          match st.prof.scripts.get? si with
          | none => .error .keyError
          | some s => do
              let count ←
                if count = none ∧ isContinuing source_line then
                  match dictGet s.lines (lnum - 1) with
                  | none => .error .keyError
                  | some prev => pure prev.count
                else pure count
              let newLine : Line :=
                { line := source_line, count := count,
                  total_time := total_time, self_time := self_time }
              let s := { s with lines := dictSet s.lines lnum newLine }
              let s :=
                if truthyInt count ∨ lnum = 1 then s.parse_function lnum source_line else s
              .ok { st with prof := { st.prof with scripts := st.prof.scripts.set si s } }
      | none =>
          match st.inFunction with
          | some f =>
              let count :=
                if count = none ∧ is_executable_line source_line then some (0 : Int) else count
              let newLine : Line :=
                { line := source_line, count := count,
                  total_time := total_time, self_time := self_time }
              let f := { f with lines := dictSet f.lines lnum newLine }
              .ok { st with inFunction := some f }
          | none => .ok st

/-- One physical input line of `Profile._parse`. -/
def stepLine (st : PState) (raw : String) : Except PyErr PState :=
  let st := { st with plnum := st.plnum + 1 }
  match st.mode with
  | .expectSourced si =>
      match matchSourcedTimes raw with
      | none => .error .attributeError
      | some n =>
          .ok { st with
            prof := { st.prof with
              scripts := updateScriptAt st.prof.scripts si
                (fun s => { s with sourced_count := some n }) },
            mode := .skipCountScript }
  | .skipCountScript =>
      if startswith raw "count" then .ok { st with mode := .top, lnum := 0 } else .ok st
  | .funcHeader =>
      if startswith raw "count" then .ok { st with mode := .top, lnum := 0 }
      else if startswith raw "    Defined:" then
        match st.inFunction with
        | none => .error .attributeError
        | some f => do
            let f' ← handleDefined st.prof.scripts_by_fname f raw
            .ok { st with inFunction := some f' }
      else .ok st
  | .top =>
      let line := rstripCRLF raw
      if line = "" then
        .ok { st with
          functions :=
            match st.inFunction with
            | some f => st.functions ++ [f]
            | none => st.functions,
          inScript := none, inFunction := none }
      else if st.inScript.isSome ∨ st.inFunction.isSome then
        dataLine st line
      else if startswith line "SCRIPT  " then
        let fname := pyDrop line 8
        let idx := st.prof.scripts.length
        .ok { st with
          prof := { st.prof with
            scripts := st.prof.scripts ++ [{ path := fname }],
            scripts_by_fname := dictSet st.prof.scripts_by_fname fname idx },
          inScript := some idx,
          mode := .expectSourced idx }
      else if startswith line "FUNCTION  " then
        let func_name := pySliceNegEnd line 10 2
        .ok { st with inFunction := some { name := func_name }, mode := .funcHeader }
      else .ok st

/-- The main loop of `Profile._parse`; a pending inner reader at end of input
is an uncaught StopIteration. -/
def parseLoop (st : PState) : List String → Except PyErr PState
  | [] =>
      match st.mode with
      | .top => .ok st
      | _ => .error .stopIteration
  | line :: rest => do
      let st' ← stepLine st line
      parseLoop st' rest

/-- The method `Profile.parse` on an already-open stream, given as the list of
its physical lines: run `_parse`'s loop, then `map_functions` on the collected
functions.  (A function stanza still open at end of input is not flushed, as in
the source.) -/
def Profile.parse (input : List String) : Except PyErr Profile := do
  let st ← parseLoop {} input
  st.prof.map_functions st.functions

/-! ## ProfileMerger: `MergedProfiles.lines` and the coverage record

`lines[s.path] = copy.copy(s_lines)` is a shallow dict copy: the copied
entries still reference the profile's own `Line` objects.  Each table entry
therefore carries an `origin`: `some (pi, si)` means the entry *is* the `Line`
stored at the same line number of `profiles[pi].scripts[si]`, so mutating it
(the first-line workaround) also mutates that profile.  `merge_lines` and
`copy.copy(line)` create fresh objects (`origin := none`). -/

/-- A merged-table entry: the `Line` value plus the identity of the profile
`Line` object it aliases, if any. -/
structure MLine where
  val : Line
  origin : Option (Nat × Nat) := none
deriving DecidableEq, Repr

/-- The merged `{script path → {lnum → Line}}` mapping being built. -/
abbrev Table := PyDict String (PyDict Int MLine)

/-- The local helper `merge_lines` of `MergedProfiles.lines`, including its
`assert line1.line == line2.line`; the fresh `Line(line1.line)` has no times. -/
def merge_lines (line1 line2 : Line) : Except PyErr Line :=
  if line1.line ≠ line2.line then .error .assertionError
  else
    let newCount : Option Int :=
      match line1.count, line2.count with
      | none, c => c
      | some a, none => some a
      | some a, some b => some (a + b)
    .ok { line := line1.line, count := newCount }

/-- Merging one script's lines into an already-present path entry:
`new[lnum] = merge_lines(new[lnum], line)` or `new[lnum] = copy.copy(line)`. -/
def mergeEntries (cur : PyDict Int MLine) :
    List (Int × Line) → Except PyErr (PyDict Int MLine)
  | [] => .ok cur
  | (l, ln) :: rest => do
      let cur' ←
        match dictGet cur l with
        | some old => do
            let m ← merge_lines old.val ln
            pure (dictSet cur l { val := m, origin := none })
        | none => pure (dictSet cur l { val := ln, origin := none })
      mergeEntries cur' rest

/-- Merge one script into the table: a new path takes the shallow dict copy
(aliasing entries, `origin := some (pi, siVal)`); an existing path merges
entry-wise. -/
def mergeScriptLines (tbl : Table) (pi siVal : Nat) (path : String)
    (s_lines : PyDict Int Line) : Except PyErr Table :=
  match dictGet tbl path with
  | none =>
      .ok (dictSet tbl path
        (s_lines.map (fun kv => (kv.1, ({ val := kv.2, origin := some (pi, siVal) } : MLine)))))
  | some cur => do
      let cur' ← mergeEntries cur s_lines
      .ok (dictSet tbl path cur')

/-- Write-through of the workaround's `line1.count = 1` to the aliased profile
`Line`.  The lookups cannot fail when called on an `origin` recorded by
`mergeScriptLines`. -/
def setProfileLine1Count (profs : List Profile) (pj sj : Nat) : List Profile :=
  match profs.get? pj with
  | none => profs
  | some p =>
      match p.scripts.get? sj with
      | none => profs
      | some s =>
          match dictGet s.lines 1 with
          | none => profs
          | some l1 =>
              let s' := { s with lines := dictSet s.lines 1 { l1 with count := some 1 } }
              profs.set pj { p with scripts := p.scripts.set sj s' }

/-- The first-line workaround of `MergedProfiles.lines` (vim/vim#2103): if the
script's sourced count and its lines dict are truthy, fetch the merged entry at
line 1 (a KeyError if absent) and, when its count is falsy (`None` *or* 0) and
the text is executable, set the count to 1 — through the alias when the entry
still belongs to a profile. -/
def applyFix (tbl : Table) (profs : List Profile) (sourced : Option Int)
    (path : String) (s_lines : PyDict Int Line) : Except PyErr (Table × List Profile) :=
  if truthyInt sourced ∧ s_lines ≠ [] then
    match dictGet tbl path with
    | none => .error .keyError
    | some d =>
        match dictGet d 1 with
        | none => .error .keyError
        | some e =>
            if ¬ truthyInt e.val.count ∧ is_executable_line e.val.line then
              let e' := { e with val := { e.val with count := some 1 } }
              let tbl' := dictSet tbl path (dictSet d 1 e')
              let profs' :=
                match e.origin with
                | some (pj, sj) => setProfileLine1Count profs pj sj
                | none => profs
              .ok (tbl', profs')
            else .ok (tbl, profs)
  else .ok (tbl, profs)

/-- Set-valued Python equality on lists standing for sets. -/
def setPyEq [DecidableEq α] (s t : List α) : Bool :=
  s.all (fun x => decide (x ∈ t)) && t.all (fun x => decide (x ∈ s))

/-- attrs equality on `Script` (all six attr fields; dict and set fields
compare by content). -/
def scriptPyEq (s t : Script) : Bool :=
  decide (s.path = t.path) && dictPyEq s.lines t.lines &&
    setPyEq s.dict_functions t.dict_functions &&
    setPyEq s.mapped_dict_functions t.mapped_dict_functions &&
    dictPyEq s.func_to_lnums t.func_to_lnums &&
    decide (s.sourced_count = t.sourced_count)

/-- The dict comprehension `{s: s.lines for s in self.scripts}` behind
`Profile.lines`: equal Script keys collapse, keeping the first key object and
the last script's lines (recorded as that script's index). -/
def dedupeScripts (ss : List Script) : List (Script × Nat) :=
  ss.enum.foldl
    (fun acc e =>
      if acc.any (fun kv => scriptPyEq kv.1 e.2) then
        acc.map (fun kv => if scriptPyEq kv.1 e.2 then (kv.1, e.1) else kv)
      else acc ++ [(e.2, e.1)])
    []

/-- Merge one `(s, s_lines)` item of a profile, then run the first-line
workaround for it, as the loop body of `MergedProfiles.lines` does. -/
def mergeOneScript (acc : Table × List Profile) (pi : Nat) (item : Script × Nat) :
    Except PyErr (Table × List Profile) := do
  let (tbl, profs) := acc
  let s_lines :=
    match profs.get? pi with
    | some p =>
        match p.scripts.get? item.2 with
        | some s => s.lines
        | none => []
    | none => []
  let tbl' ← mergeScriptLines tbl pi item.2 item.1.path s_lines
  applyFix tbl' profs item.1.sourced_count item.1.path s_lines

/-- The `for s, s_lines in p.lines.items()` loop for one profile. -/
def mergeProfile (acc : Table × List Profile) (pi : Nat) :
    Except PyErr (Table × List Profile) :=
  let items :=
    match acc.2.get? pi with
    | some p => dedupeScripts p.scripts
    | none => []
  items.foldlM (fun a item => mergeOneScript a pi item) acc

/-- The property `MergedProfiles.lines`: the merged table, together with the
profiles as they stand afterwards (the workaround writes through the shallow
copy's aliases, so profiles can change). -/
def mergedLinesFull (profs : List Profile) : Except PyErr (Table × List Profile) :=
  (List.range profs.length).foldlM mergeProfile (([] : Table), profs)

/-- Count of the merged entry at a path and line, `none` when absent. -/
def countAt (tbl : Table) (path : String) (l : Int) : Option (Option Int) :=
  (dictGet tbl path).bind (fun d => (dictGet d l).map (fun e => e.val.count))

/-- Text of the merged entry at a path and line. -/
def textAt (tbl : Table) (path : String) (l : Int) : Option String :=
  (dictGet tbl path).bind (fun d => (dictGet d l).map (fun e => e.val.line))

/-- The data handed to the external coverage writer: per path, the line numbers
with a truthy count, plus the constant file-tracer tag. -/
structure CovRecord where
  cov_dict : PyDict String (List Int)
  cov_file_tracers : PyDict String String
deriving DecidableEq, Repr

/-- The record-building part of `MergedProfiles._get_coveragepy_data`, modelled
for `source = []` and `append_to = None` (the claims about caching involve
neither source filtering nor appending, which depend on the filesystem);
`os.path.abspath` is the identity on the absolute, already-normal paths used
throughout.  The external `CoverageData` object receives exactly
`cov_dict` / `cov_file_tracers`. -/
def getCoveragepyDataImpl (profs : List Profile) : Except PyErr CovRecord := do
  let (tbl, _) ← mergedLinesFull profs
  .ok { cov_dict := tbl.map (fun kv =>
          (kv.1, (kv.2.filter (fun e => truthyInt e.2.val.count)).map Prod.fst)),
        cov_file_tracers := tbl.map (fun kv => (kv.1, "covimerage.CoveragePlugin")) }

/-- The class `MergedProfiles`, reduced to the fields the caching claims are
about (`source` and `append_to` are forwarded to the environment unchanged and
never touch the cache logic). -/
structure MergedProfiles where
  profiles : List Profile := []
  coveragepy_data : Option CovRecord := none
deriving DecidableEq, Repr

/-- The `__setattr__` override: assigning to the `profiles` attribute clears
the cached `_coveragepy_data`. -/
def MergedProfiles.setProfiles (m : MergedProfiles) (ps : List Profile) : MergedProfiles :=
  { m with profiles := ps, coveragepy_data := none }

/-- The method `add_profile_files`: parse each given profile stream and append
it via `self.profiles.append(p)` — attribute access, not assignment, so
`__setattr__` never runs and the cache field is untouched.  (An input that
fails to parse aborts the whole computation here; the partially grown state a
Python caller could still observe after the exception is not needed by any
claim.) -/
def MergedProfiles.add_profile_files (m : MergedProfiles) (files : List (List String)) :
    Except PyErr MergedProfiles := do
  let ps ← files.mapM Profile.parse
  .ok { m with profiles := m.profiles ++ ps }

/-- The method `get_coveragepy_data`: return the cached record if present,
else compute and cache it. -/
def MergedProfiles.get_coveragepy_data (m : MergedProfiles) :
    Except PyErr (CovRecord × MergedProfiles) :=
  match m.coveragepy_data with
  | some d => .ok (d, m)
  | none => do
      let d ← getCoveragepyDataImpl m.profiles
      .ok (d, { m with coveragepy_data := some d })

/-! ## Auxiliary definitions and concrete inputs used by the theorems -/

/-- Build a profile data line: a 5-character count field, blank time fields,
source text from column 28. -/
def mkDataLine (c t : String) : String :=
  c ++ "   " ++ "        " ++ "   " ++ "        " ++ " " ++ t

/-- The contiguous line-number list `[1, …, n]`. -/
def lnumRange (n : Nat) : List Int := (List.range n).map (fun (i : Nat) => (i : Int) + 1)

/-- A script's line numbers are exactly `1, …, max` with no gaps. -/
def goodKeys (s : Script) : Prop := dictKeys s.lines = lnumRange s.lines.length

/-- Total number of consumed dict-function sites across a profile's scripts. -/
def totalMapped (p : Profile) : Nat :=
  (p.scripts.map (fun s => s.mapped_dict_functions.length)).sum

/-- C1's counterexample input: the script declares `F` on its last line, so the
named-candidate validation peeks past the end of the script. -/
def c1Input : List String :=
  ["SCRIPT  /t/c1.vim", "Sourced 1 time", "count (s)",
   mkDataLine "    1" "function! F()",
   "",
   "FUNCTION  F()", "count (s)",
   mkDataLine "    1" "let x=1",
   ""]

/-- C8's counterexample input: the `Defined:` header names `/t/none.vim`,
which no `SCRIPT` stanza declared. -/
def c8Input : List String :=
  ["SCRIPT  /t/c8.vim", "Sourced 1 time", "count (s)",
   mkDataLine "    1" "let a=1",
   "",
   "FUNCTION  G()",
   "    Defined: /t/none.vim:3",
   "count (s)",
   mkDataLine "    1" "let x=1",
   ""]

/-- C3's counterexample input: the middle data line has an unparseable count
field, so it is skipped and line number 2 is never recorded. -/
def c3Input : List String :=
  ["SCRIPT  /t/c3.vim", "Sourced 1 time", "count (s)",
   mkDataLine "    1" "let a=1",
   mkDataLine "  bad" "let b=2",
   mkDataLine "    1" "let c=3"]

/-- A warning-free input for C3's amended statement: two well-formed data
lines. -/
def c3OkInput : List String :=
  ["SCRIPT  /t/c3ok.vim", "Sourced 1 time", "count (s)",
   mkDataLine "    1" "let a=1",
   mkDataLine "    1" "let b=2"]

/-- The line table of the script `Profile.parse c3OkInput` produces. -/
def c3OkLines : PyDict Int Line :=
  [(1, { line := "let a=1", count := some 1 }), (2, { line := "let b=2", count := some 1 })]

/-- The script `Profile.parse c3OkInput` produces. -/
def c3OkScript : Script :=
  { path := "/t/c3ok.vim", lines := c3OkLines, sourced_count := some 1 }

/-- The profile `Profile.parse c3OkInput` produces. -/
def c3OkProfile : Profile :=
  { scripts := [c3OkScript], scripts_by_fname := [("/t/c3ok.vim", 0)] }

/-- The condition under which `_parse` logs the count/times warning and skips
the line: in the main loop, a nonblank line while a script or function stanza
is open whose fixed-column count/times parse fails. -/
def taintStep (st : PState) (raw : String) : Bool :=
  match st.mode with
  | PMode.top =>
      let line := rstripCRLF raw
      if line = "" then false
      else
        if st.inScript.isSome ∨ st.inFunction.isSome then
          match parse_count_and_times line with
          | .error _ => true
          | .ok _ => false
        else false
  | _ => false

/-- Record the open script's index when a malformed data line is skipped
(a skipped line inside a function stanza taints no script). -/
def stepBad (st : PState) (raw : String) (bad : List Nat) : List Nat :=
  if taintStep st raw then
    match st.inScript with
    | some si => bad ++ [si]
    | none => bad
  else bad

/-- The indices of scripts whose stanza had at least one malformed
(warned-and-skipped) data line, accumulated along the parse. -/
def taintedScripts (st : PState) (bad : List Nat) : List String → List Nat
  | [] => bad
  | raw :: rest =>
      match stepLine st raw with
      | .error _ => bad
      | .ok st' => taintedScripts st' (stepBad st raw bad) rest

/-- The script indices whose stanza had a malformed data line, over a whole
input. -/
def malformedStanzas (input : List String) : List Nat :=
  taintedScripts {} [] input

/-- The count combination of `merge_lines`: `a + missing = a`, `missing +
missing = missing`, otherwise the sum. -/
def cntAdd : Option Int → Option Int → Option Int
  | none, c => c
  | some a, none => some a
  | some a, some b => some (a + b)

/-- One merge step on the count of a table entry: no entry yet (`none`) takes
the incoming count (the copy), an existing entry combines by `cntAdd`. -/
def cntCombine (acc : Option (Option Int)) (c : Option Int) : Option (Option Int) :=
  some (match acc with | none => c | some a => cntAdd a c)

/-- The fold of all incoming counts at one `(path, line)` in processing
order: `none` when nothing arrived. -/
def foldCounts (cs : List (Option Int)) : Option (Option Int) :=
  cs.foldl cntCombine none

/-- The lines dict `mergeOneScript` reads back for an item. -/
def itemLines (profs : List Profile) (pi si : Nat) : PyDict Int Line :=
  match profs.get? pi with
  | some p =>
      match p.scripts.get? si with
      | some s => s.lines
      | none => []
  | none => []

/-- The `(path, lines)` items one profile of the list feeds to the merge
loop, in order. -/
def profItemsIdx (profs : List Profile) (pi : Nat) : List (String × PyDict Int Line) :=
  match profs.get? pi with
  | some p =>
      (dedupeScripts p.scripts).map (fun item => (item.1.path, itemLines profs pi item.2))
  | none => []

/-- The `(path, lines)` items of one profile, index-free: the same list as
`profItemsIdx` at any position the profile occupies. -/
def profItems (p : Profile) : List (String × PyDict Int Line) :=
  (dedupeScripts p.scripts).map (fun item =>
    (item.1.path,
      match p.scripts.get? item.2 with
      | some s => s.lines
      | none => []))

/-- All items a profile list feeds to the table-building fold, in order. -/
def allItems (profs : List Profile) : List (String × PyDict Int Line) :=
  (profs.map profItems).flatten

/-- The incoming `Line`s at one `(path, line)` across a list of items, in
order. -/
def contribsAt (its : List (String × PyDict Int Line)) (path : String) (l : Int) :
    List Line :=
  (its.filter (fun it => it.1 = path)).filterMap (fun it => dictGet it.2 l)

/-- Agreement of the contribution texts at every `(path, line)`. -/
def TextAgree (its : List (String × PyDict Int Line)) : Prop :=
  ∀ path l c1 c2, c1 ∈ contribsAt its path l → c2 ∈ contribsAt its path l →
    c1.line = c2.line

/-- The invariant of the table-building fold after processing `its`: a path is
absent iff no processed item had it, each entry's count is the `cntAdd`-fold
of the contributions so far, and each entry's text comes from some
contribution. -/
def TblInv (its : List (String × PyDict Int Line)) (tbl : Table) : Prop :=
  ∀ path : String,
    (dictGet tbl path = none ↔ its.filter (fun it => it.1 = path) = []) ∧
    ∀ l : Int,
      countAt tbl path l = foldCounts ((contribsAt its path l).map Line.count) ∧
      ∀ d e, dictGet tbl path = some d → dictGet d l = some e →
        ∃ c ∈ contribsAt its path l, e.val.line = c.line

/-- C4's commutativity witness: two one-script profiles on the same path with
agreeing text and different counts at line 1. -/
def c4wP1 : Profile :=
  { scripts := [{ path := "/w4.vim", lines := [(1, { line := "let x=1", count := some 2 })] }] }

/-- The second profile of C4's commutativity witness. -/
def c4wP2 : Profile :=
  { scripts := [{ path := "/w4.vim", lines := [(1, { line := "let x=1", count := some 3 })] }] }

/-- A parser state inside a script stanza, used to witness C2's recovery
conjunct. -/
def c2WitState : PState :=
  { prof := { scripts := [{ path := "/t/c2w.vim" }],
              scripts_by_fname := [("/t/c2w.vim", 0)] },
    inScript := some 0 }

/-- A parser state inside a function-header block, used to witness C8's
amended claim. -/
def c8WitState : PState :=
  { prof := { scripts := [{ path := "/t/c8w.vim" }],
              scripts_by_fname := [("/t/c8w.vim", 0)] },
    inFunction := some { name := "H" },
    mode := .funcHeader }

/-- A one-line script and a one-line function body that does not fit it, used
to witness C1's amended claim. -/
def c1WitScript : Script := { path := "/t/c1w.vim" }

def c1WitFunc : Function := { name := "W", lines := [(1, { line := "let x=1" })] }

def c1WitProfile : Profile :=
  { scripts := [{ path := "/t/c1w2.vim",
                  lines := [(4, { line := "function! d.f()", count := some 1 })],
                  dict_functions := [4] }],
    scripts_by_fname := [("/t/c1w2.vim", 0)] }

/-! ## Claim C1 -/

/-- Claim C1, counterexample: on `c1Input` — a well-formed stream with a named
function whose declaring script is shorter than the function body —
`Profile.parse` does not return normally: the KeyError raised inside
`source_contains_func` escapes to the caller. -/
theorem claim_C1_counterexample : Profile.parse c1Input = .error .keyError := by
  decide

/-- Claim C1, amended: `parse()` recovers only from count/time parse failures
on data lines.  A named-function candidate whose script lacks the line the
function body needs makes `source_contains_func` raise an uncaught KeyError,
and a dict-function site at the last line of a script (no line at `lnum + 1`)
makes the anonymous-function scan raise an uncaught KeyError; both escape to
the caller of `parse()`. -/
theorem claim_C1_amended :
    (∀ (script : Script) (script_lnum : Int) (func : Function)
        (f_lnum : Int) (f_line : Line),
        func.lines = [(f_lnum, f_line)] →
        dictGet script.lines (script_lnum + f_lnum) = none →
        source_contains_func script script_lnum func = .error .keyError) ∧
    (∀ (p : Profile) (f : Function) (s : Script) (lnum : Int),
        p.scripts = [s] → s.dict_functions = [lnum] →
        dictGet s.lines (lnum + 1) = none →
        p.get_anon_func_script_line_impl f = .error .keyError) := by
  constructor
  · intro script script_lnum func f_lnum f_line hlines hget
    simp [source_contains_func, hlines, sccLoop, hget]
  · intro p f s lnum hs hdf hget
    simp [Profile.get_anon_func_script_line_impl, anonScan, hs, hdf, List.enum,
      anonCandidate, hget, bind, Except.bind]

/-- Witness for C1's amended claim, at a one-line function body against an
empty script and at a dict-function site on the last line of a script. -/
theorem claim_C1_amended_witness :
    source_contains_func c1WitScript 0 c1WitFunc = .error .keyError ∧
    c1WitProfile.get_anon_func_script_line_impl c1WitFunc = .error .keyError :=
  ⟨claim_C1_amended.1 c1WitScript 0 c1WitFunc 1 { line := "let x=1" } rfl rfl,
   claim_C1_amended.2 c1WitProfile c1WitFunc _ 4 rfl rfl rfl⟩

/-! ## Claim C2 -/

/-- Claim C2, counterexample: the count field `   -3` is neither empty nor all
spaces, and `int()` parses it to the *negative* integer −3, which
`parse_count_and_times` returns — contradicting "otherwise returns a
non-negative integer count". -/
theorem claim_C2_counterexample :
    parse_count_and_times (mkDataLine "   -3" "x") = .ok (some (-3), none, none) ∧
    (-3 : Int) < 0 := by
  exact ⟨by rfl, by decide⟩

/-- Claim C2, amended: an empty count field returns `(0, None, None)` early; a
five-space count field gives count `None`; otherwise the count is whatever
integer `int()` parses from the field — possibly negative.  The time fields
are `None` exactly when all spaces and otherwise the parsed decimal.  A field
that parses as none of these raises an error which the parser catches on data
lines, logging a warning and skipping the line. -/
theorem claim_C2_amended :
    (∀ line : String, pySliceNN line 0 5 = "" →
        parse_count_and_times line = .ok (some 0, none, none)) ∧
    (∀ (line : String) (c : Option Int) (t s : Option Rat),
        parse_count_and_times line = .ok (c, t, s) →
        c = (if pySliceNN line 0 5 = "" then some 0
             else if pySliceNN line 0 5 = "     " then none
             else pyInt (pySliceNN line 0 5)) ∧
        t = (if pySliceNN line 0 5 = "" then none
             else if pySliceNN line 8 16 = "        " then none
             else pyFloat (pySliceNN line 8 16)) ∧
        s = (if pySliceNN line 0 5 = "" then none
             else if pySliceNN line 19 27 = "        " then none
             else pyFloat (pySliceNN line 19 27))) ∧
    (∀ (st : PState) (raw : String) (e : PyErr) (si : Nat),
        st.mode = PMode.top → st.inScript = some si → rstripCRLF raw ≠ "" →
        parse_count_and_times (rstripCRLF raw) = .error e →
        stepLine st raw = .ok { st with
          plnum := st.plnum + 1, lnum := st.lnum + 1,
          prof := { st.prof with log := st.prof.log ++ [LogMsg.warnCountTimes] } }) := by
  refine ⟨?_, ?_, ?_⟩
  · intro line h
    simp [parse_count_and_times, h, pure, Except.pure]
  · intro line c t s h
    unfold parse_count_and_times at h
    simp only [bind, Except.bind, pure, Except.pure] at h
    repeat' split at h
    all_goals first
      | exact Except.noConfusion h
      | (injection h with hPair
         injection hPair with h1 h23
         injection h23 with h2 h3
         subst h1
         subst h2
         subst h3
         simp_all)
  · intro st raw e si hmode hsi hne hparse
    simp only [stepLine, hmode, hsi, Option.isSome_some, true_or, if_true]
    rw [if_neg hne]
    simp only [dataLine, hparse]

/-- The malformed data line used to witness C2's recovery conjunct. -/
def c2BadLine : String := mkDataLine "  bad" "x"

/-- The state C2's recovery conjunct produces from `c2WitState` at `c2BadLine`. -/
def c2WitStateAfter : PState :=
  { c2WitState with
    lnum := 1
    plnum := 1
    prof := { c2WitState.prof with log := [LogMsg.warnCountTimes] } }

/-- Witness for C2's amended claim: the empty count field's early return, and
the parser catching a malformed count field, logging the warning and skipping
the line. -/
theorem claim_C2_amended_witness :
    parse_count_and_times "" = .ok (some 0, none, none) ∧
    stepLine c2WitState c2BadLine = .ok c2WitStateAfter :=
  ⟨claim_C2_amended.1 "" (by decide),
   by
     have h := claim_C2_amended.2.2 c2WitState c2BadLine PyErr.valueError 0
       rfl rfl (by decide) (by decide)
     exact h⟩

/-! ## Dictionary lemmas used by several claims -/

theorem dictGet_set_self [DecidableEq κ] (d : PyDict κ α) (k : κ) (v : α) :
    dictGet (dictSet d k v) k = some v := by
  induction d with
  | nil => simp [dictSet, dictGet]
  | cons kv rest ih =>
      unfold dictSet
      by_cases h : kv.1 = k
      · simp [dictGet, h]
      · simp [dictGet, h, ih]

theorem dictGet_set_ne [DecidableEq κ] (d : PyDict κ α) (k k' : κ) (v : α)
    (h : k' ≠ k) : dictGet (dictSet d k v) k' = dictGet d k' := by
  induction d with
  | nil =>
      have hne : ¬k = k' := fun hh => h hh.symm
      simp [dictSet, dictGet, hne]
  | cons kv rest ih =>
      obtain ⟨a, b⟩ := kv
      unfold dictSet
      by_cases hk : a = k
      · subst hk
        have hne : ¬a = k' := fun hh => h hh.symm
        simp [dictGet, hne]
      · simp only [hk, if_false]
        unfold dictGet
        by_cases hk' : a = k' <;> simp [hk, hk', ih]

theorem dictKeys_set_of_get [DecidableEq κ] (d : PyDict κ α) (k : κ) (v w : α)
    (h : dictGet d k = some w) : dictKeys (dictSet d k v) = dictKeys d := by
  induction d with
  | nil => simp [dictGet] at h
  | cons kv rest ih =>
      unfold dictGet at h
      unfold dictSet
      by_cases hk : kv.1 = k
      · simp [dictKeys, hk]
      · simp only [hk, if_false] at h ⊢
        simp [dictKeys] at ih ⊢
        exact ih h

theorem length_set_of_get [DecidableEq κ] (d : PyDict κ α) (k : κ) (v w : α)
    (h : dictGet d k = some w) : (dictSet d k v).length = d.length := by
  have := dictKeys_set_of_get d k v w h
  have h1 : (dictSet d k v).length = (dictKeys (dictSet d k v)).length := by
    simp [dictKeys]
  have h2 : d.length = (dictKeys d).length := by simp [dictKeys]
  rw [h1, h2, this]

/-! ## Claim C8 -/

/-- Claim C8, counterexample: on `c8Input` the `Defined:` header names an
undeclared script; instead of a warning and a content-matching fallback, the
lookup `self.scripts_by_fname[fname]` raises a KeyError that escapes from
`parse()`. -/
theorem claim_C8_counterexample : Profile.parse c8Input = .error .keyError := by
  decide

/-- Claim C8, amended: when a `Defined:` header of a function stanza names a
script path the profile never declared, the parser raises an uncaught KeyError
at the `scripts_by_fname` lookup; no warning is logged, the Function's source
is not set, and no content-matching fallback happens, because `parse()` aborts
there. -/
theorem claim_C8_amended :
    ∀ (st : PState) (f : Function) (raw : String),
      st.mode = PMode.funcHeader → st.inFunction = some f →
      startswith raw "count" = false → startswith raw "    Defined:" = true →
      dictGet st.prof.scripts_by_fname (definedParts raw).1 = none →
      stepLine st raw = .error .keyError := by
  intro st f raw hmode hfn hcount hdef hget
  simp only [stepLine, hmode, hcount, hdef, hfn, Bool.false_eq_true, if_false, if_true,
    handleDefined, hget]
  rfl

/-- Witness for C8's amended claim at a concrete header state. -/
theorem claim_C8_amended_witness :
    stepLine c8WitState "    Defined: /t/none.vim:3" = .error .keyError :=
  claim_C8_amended c8WitState { name := "H" } "    Defined: /t/none.vim:3"
    rfl rfl (by decide) (by decide) (by decide)

/-! ## Claim C3 -/

/-- Claim C3, counterexample: on `c3Input` the parse succeeds, but the single
script's recorded line numbers are `[1, 3]` — the malformed second data line
was skipped, so the keys are not `{1, …, max}`. -/
theorem claim_C3_counterexample :
    (Profile.parse c3Input).map (fun p => p.scripts.map (fun s => dictKeys s.lines))
      = .ok [[1, 3]] ∧
    (Profile.parse c3Input).map
        (fun p => p.scripts.map (fun s => decide (dictKeys s.lines = lnumRange s.lines.length)))
      = .ok [false] := by
  constructor
  · decide
  · decide

/-! ## Claim C5 -/

/-- C5's counterexample input: line 1 carries the recorded count `0`. -/
def c5Input : List String :=
  ["SCRIPT  /t/c5.vim", "Sourced 1 time", "count (s)",
   mkDataLine "    0" "let z=0"]

/-- Claim C5, counterexample: on `c5Input` line 1 *has* a recorded count
(zero), yet the first-line workaround still fires — `not line1.count` is true
for a recorded `0` as well as for `None` — and the merged count becomes 1,
contradicting "if and only if … line 1 previously had no recorded count". -/
theorem claim_C5_counterexample :
    (Profile.parse c5Input).map
        (fun p => p.scripts.map (fun s => (dictGet s.lines 1).map Line.count))
      = .ok [some (some 0)] ∧
    ((Profile.parse c5Input).bind (fun p => mergedLinesFull [p])).map
        (fun r => countAt r.1 "/t/c5.vim" 1)
      = .ok (some (some 1)) := by
  exact ⟨by decide, by decide⟩

/-- Claim C5, amended: during the merge the workaround sets the merged line-1
count of the script's path to 1 if and only if the script's sourced-count is
truthy, the script has at least one line, and the merged entry at line 1 has a
*falsy* count (`None` or a recorded `0`) and executable text; no other table
entry is modified.  (If the merged table lacks line 1 entirely the lookup
raises KeyError instead.) -/
theorem claim_C5_amended :
    (∀ (tbl : Table) (profs : List Profile) (sourced : Option Int)
        (path : String) (s_lines : PyDict Int Line),
        ¬(truthyInt sourced = true ∧ s_lines ≠ []) →
        applyFix tbl profs sourced path s_lines = .ok (tbl, profs)) ∧
    (∀ (tbl : Table) (profs : List Profile) (sourced : Option Int)
        (path : String) (s_lines : PyDict Int Line) (d : PyDict Int MLine) (e : MLine),
        dictGet tbl path = some d → dictGet d 1 = some e →
        ¬(truthyInt e.val.count = false ∧ is_executable_line e.val.line = true) →
        applyFix tbl profs sourced path s_lines = .ok (tbl, profs)) ∧
    (∀ (tbl : Table) (profs : List Profile) (sourced : Option Int)
        (path : String) (s_lines : PyDict Int Line) (d : PyDict Int MLine) (e : MLine),
        truthyInt sourced = true → s_lines ≠ [] →
        dictGet tbl path = some d → dictGet d 1 = some e →
        truthyInt e.val.count = false → is_executable_line e.val.line = true →
        applyFix tbl profs sourced path s_lines =
          .ok (dictSet tbl path (dictSet d 1 { e with val := { e.val with count := some 1 } }),
               match e.origin with
               | some o => setProfileLine1Count profs o.1 o.2
               | none => profs) ∧
        countAt (dictSet tbl path (dictSet d 1 { e with val := { e.val with count := some 1 } }))
          path 1 = some (some 1) ∧
        (∀ (π : String) (l : Int), ¬(π = path ∧ l = 1) →
          countAt (dictSet tbl path (dictSet d 1 { e with val := { e.val with count := some 1 } }))
            π l = countAt tbl π l)) := by
  refine ⟨?_, ?_, ?_⟩
  · intro tbl profs sourced path s_lines hno
    unfold applyFix
    rw [if_neg]
    intro hc
    exact hno ⟨hc.1, hc.2⟩
  · intro tbl profs sourced path s_lines d e hd he hno
    unfold applyFix
    split
    · simp only [hd, he]
      rw [if_neg]
      intro hc
      rcases hc with ⟨hc1, hc2⟩
      apply hno
      constructor
      · rcases hcv : truthyInt e.val.count with _ | _
        · rfl
        · exact absurd hcv hc1
      · exact hc2
    · rfl
  · intro tbl profs sourced path s_lines d e hs hne hd he hcnt hexe
    have hfix : applyFix tbl profs sourced path s_lines =
        .ok (dictSet tbl path (dictSet d 1 { e with val := { e.val with count := some 1 } }),
             match e.origin with
             | some o => setProfileLine1Count profs o.1 o.2
             | none => profs) := by
      unfold applyFix
      rw [if_pos ⟨hs, hne⟩]
      simp only [hd, he]
      rw [if_pos ⟨by simp [hcnt], hexe⟩]
      rcases e.origin with _ | ⟨pj, sj⟩ <;> rfl
    refine ⟨hfix, ?_, ?_⟩
    · unfold countAt
      rw [dictGet_set_self]
      simp [dictGet_set_self]
    · intro π l hπl
      unfold countAt
      by_cases hπ : π = path
      · subst hπ
        have hl : l ≠ 1 := fun hl => hπl ⟨rfl, hl⟩
        rw [dictGet_set_self, hd]
        simp [dictGet_set_ne d 1 l _ hl]
      · rw [dictGet_set_ne tbl path π _ hπ]

/-- Witness for C5's amended claim at a one-entry table whose line 1 has count
`None` and executable text. -/
theorem claim_C5_amended_witness :
    applyFix [("/w.vim", [(1, { val := { line := "let a=1" } })])] [] (some 1) "/w.vim"
        [(1, { line := "let a=1" })]
      = .ok ([("/w.vim", [(1, { val := { line := "let a=1", count := some 1 } })])], []) := by
  have h := (claim_C5_amended.2.2 [("/w.vim", [(1, { val := { line := "let a=1" } })])] []
    (some 1) "/w.vim" [(1, { line := "let a=1" })]
    [(1, { val := { line := "let a=1" } })] { val := { line := "let a=1" } }
    (by decide) (by decide) (by decide) (by decide) (by decide) (by decide)).1
  exact h

/-! ## Claim C6 -/

/-- C6's first profile input. -/
def c6Input1 : List String :=
  ["SCRIPT  /t/c6a.vim", "Sourced 1 time", "count (s)",
   mkDataLine "    2" "let a=1"]

/-- C6's second profile input, covering a different file. -/
def c6Input2 : List String :=
  ["SCRIPT  /t/c6b.vim", "Sourced 1 time", "count (s)",
   mkDataLine "    3" "let b=1"]

/-- C6's counterexample run: cache a record, grow the profile set via
`add_profile_files`, fetch again, and recompute from scratch. -/
def c6Run : Except PyErr (CovRecord × CovRecord × CovRecord) := do
  let p1 ← Profile.parse c6Input1
  let m0 : MergedProfiles := { profiles := [p1] }
  let (d1, m1) ← m0.get_coveragepy_data
  let m2 ← m1.add_profile_files [c6Input2]
  let (d2, _) ← m2.get_coveragepy_data
  let fresh ← getCoveragepyDataImpl m2.profiles
  pure (d1, d2, fresh)

/-- Claim C6, counterexample: after `add_profile_files` the next
`get_coveragepy_data` still returns the cached record (it equals the first
one and misses `/t/c6b.vim`), while recomputing from the current profiles
yields a different record covering both files. -/
theorem claim_C6_counterexample :
    c6Run.map (fun r => (decide (r.2.1 = r.1), decide (r.2.1 = r.2.2))) = .ok (true, false) ∧
    c6Run.map (fun r => r.2.2.cov_dict.map Prod.fst)
      = .ok ["/t/c6a.vim", "/t/c6b.vim"] := by
  exact ⟨by decide, by decide⟩

/-- Claim C6, amended: only *reassigning* the `profiles` attribute invalidates
the cached coverage record (via `__setattr__`); `add_profile_files` grows the
list in place through attribute access and leaves any cached record intact, so
a subsequent `get_coveragepy_data` returns the stale cache; when the cache is
empty, `get_coveragepy_data` computes the record from the current profiles and
stores it. -/
theorem claim_C6_amended :
    (∀ (m : MergedProfiles) (ps : List Profile),
        (m.setProfiles ps).coveragepy_data = none ∧ (m.setProfiles ps).profiles = ps) ∧
    (∀ (m : MergedProfiles) (d : CovRecord),
        m.coveragepy_data = some d → m.get_coveragepy_data = .ok (d, m)) ∧
    (∀ (m : MergedProfiles) (files : List (List String)) (m' : MergedProfiles),
        m.add_profile_files files = .ok m' → m'.coveragepy_data = m.coveragepy_data) ∧
    (∀ (m : MergedProfiles), m.coveragepy_data = none →
        ∀ (d : CovRecord) (m' : MergedProfiles),
          m.get_coveragepy_data = .ok (d, m') →
          getCoveragepyDataImpl m.profiles = .ok d ∧
          m' = { m with coveragepy_data := some d }) := by
  refine ⟨?_, ?_, ?_, ?_⟩
  · intro m ps
    exact ⟨rfl, rfl⟩
  · intro m d h
    simp [MergedProfiles.get_coveragepy_data, h]
  · intro m files m' h
    unfold MergedProfiles.add_profile_files at h
    simp only [bind, Except.bind] at h
    rcases hm : files.mapM Profile.parse with _ | ps <;> rw [hm] at h
    · cases h
    · simp only [pure, Except.pure, Except.ok.injEq] at h
      rw [← h]
  · intro m hnone d m' h
    unfold MergedProfiles.get_coveragepy_data at h
    rw [hnone] at h
    simp only [bind, Except.bind] at h
    rcases hi : getCoveragepyDataImpl m.profiles with _ | d0 <;> rw [hi] at h
    · cases h
    · simp only [pure, Except.pure, Except.ok.injEq, Prod.mk.injEq] at h
      obtain ⟨h1, h2⟩ := h
      subst h1
      exact ⟨rfl, h2.symm⟩

/-- Witness for C6's amended claim: a cached record survives
`add_profile_files` and is returned unchanged by `get_coveragepy_data`. -/
theorem claim_C6_amended_witness :
    ({ profiles := [], coveragepy_data := some { cov_dict := [], cov_file_tracers := [] } }
        : MergedProfiles).get_coveragepy_data
      = .ok ({ cov_dict := [], cov_file_tracers := [] },
             { profiles := [], coveragepy_data := some { cov_dict := [], cov_file_tracers := [] } }) :=
  claim_C6_amended.2.1 _ { cov_dict := [], cov_file_tracers := [] } rfl

/-! ## Claim C7 (counterexample; the amended theorem follows the merge lemmas) -/

/-- C7's counterexample input: sourced once, line 1 executable with no count. -/
def c7Input : List String :=
  ["SCRIPT  /t/c7.vim", "Sourced 1 time", "count (s)",
   mkDataLine "     " "let y=0"]

/-- C7's counterexample run: parse one profile and merge the singleton list,
observing the profiles as returned by the merge. -/
def c7Run : Except PyErr (Profile × List Profile) := do
  let p ← Profile.parse c7Input
  let (_, ps) ← mergedLinesFull [p]
  pure (p, ps)

/-- Claim C7, counterexample: computing the merged table from `[p]` does *not*
leave `p` unchanged — the first-line workaround writes count 1 through the
shallow dict copy into the profile's own `Line` (its count was `None` before
the merge and `1` afterwards). -/
theorem claim_C7_counterexample :
    c7Run.map (fun r => decide (r.2 = [r.1])) = .ok false ∧
    c7Run.map (fun r =>
        (r.1.scripts.map (fun s => (dictGet s.lines 1).map Line.count),
         r.2.map (fun q => q.scripts.map (fun s => (dictGet s.lines 1).map Line.count))))
      = .ok ([some none], [[some (some 1)]]) := by
  exact ⟨by decide, by decide⟩

/-! ## Claim C4 (counterexample; the amended theorem follows the merge lemmas) -/

/-- C4's first profile: line 1 `let y=0` with no count, sourced once. -/
def c4InputA : List String :=
  ["SCRIPT  /t/c4.vim", "Sourced 1 time", "count (s)",
   mkDataLine "     " "let y=0"]

/-- C4's second profile: same path and text, count 5, sourced count 0. -/
def c4InputB : List String :=
  ["SCRIPT  /t/c4.vim", "Sourced 0 time", "count (s)",
   mkDataLine "    5" "let y=0"]

/-- C4's counterexample run: merge the two parsed profiles in both orders and
read the merged count of line 1. -/
def c4Run : Except PyErr (Option (Option Int) × Option (Option Int)) := do
  let p1 ← Profile.parse c4InputA
  let p2 ← Profile.parse c4InputB
  let (t12, _) ← mergedLinesFull [p1, p2]
  let (t21, _) ← mergedLinesFull [p2, p1]
  pure (countAt t12 "/t/c4.vim" 1, countAt t21 "/t/c4.vim" 1)

/-- Claim C4, counterexample: merging `[P1, P2]` gives line-1 count 6 (the
workaround fires on P1's countless line before P2's 5 is added), while
`[P2, P1]` gives 5 (count 5 is already recorded, the workaround never fires) —
the merge is not commutative on Profile order, and neither result matches the
claimed count combination `missing + 5 = 5` on one side. -/
theorem claim_C4_counterexample :
    c4Run = .ok (some (some 6), some (some 5)) ∧ (6 : Int) ≠ 5 := by
  exact ⟨by decide, by decide⟩

/-! ## Claim C10 -/

/-- C10's script: two plain lines with counts, and a name index entry for `F`
so that the second function can be resolved by content. -/
def c10Script : Script :=
  { path := "/t/c10.vim",
    lines := [(1, { line := "let a=1", count := some 1 }),
              (2, { line := "let b=2", count := some 1 })],
    func_to_lnums := [("F", [1])],
    sourced_count := some 1 }

def c10Prof : Profile :=
  { scripts := [c10Script], scripts_by_fname := [("/t/c10.vim", 0)] }

/-- C10's failing function: a declared source at line offset 0, a first body
line matching script line 1, and a second body line matching nothing. -/
def c10fBad : Function :=
  { name := "B", source := some (0, 0),
    lines := [(1, { line := "let a=1", count := some 1 }),
              (2, { line := "WRONG", count := some 1 })] }

/-- C10's succeeding function, resolved by content to script line 1 + 1. -/
def c10fOk : Function :=
  { name := "F", lines := [(1, { line := "let b=2", count := some 1 })] }

/-- Claim C10 (confirmed, by concrete demonstration): `map_function` is not
atomic.  On `c10fBad` it fails at the second body line *after* having already
added the first body line's count to script line 1 (count 1 → 2), and returns
False so the function stays pending.  Running `map_functions` on
`[c10fBad, c10fOk]` then performs two passes — the first pass maps `c10fOk`
(shrinking the list, so the loop repeats), each pass re-runs `c10fBad` up to
the same mismatch — and script line 1 ends at count 3 = 1 + 1 + 1, the first
body line's count added once per pass.  The log shows the two mismatch
warnings and the final unresolved-function error. -/
theorem claim_C10 :
    (c10Prof.map_function c10fBad).map
        (fun r => (r.1, r.2.scripts.map (fun s => (dictGet s.lines 1).map Line.count)))
      = .ok (false, [some (some 2)]) ∧
    (c10Prof.map_functions [c10fBad, c10fOk]).map
        (fun p => (p.scripts.map (fun s =>
            ((dictGet s.lines 1).map Line.count, (dictGet s.lines 2).map Line.count)),
          p.log))
      = .ok ([(some (some 3), some (some 2))],
             [.warnLineMismatch, .warnLineMismatch, .errNoSource]) := by
  exact ⟨by decide, by decide⟩

/-! ## Claim C9 -/

theorem pySetAdd_length_le [DecidableEq α] (s : List α) (x : α) :
    (pySetAdd s x).length ≤ s.length + 1 := by
  unfold pySetAdd
  split
  · omega
  · simp

theorem sum_map_set (ls : List α) (g : α → Nat) :
    ∀ (i : Nat) (x a : α), ls.get? i = some a →
      (((ls.set i x).map g).sum + g a = (ls.map g).sum + g x) := by
  induction ls with
  | nil => intro i x a h; simp at h
  | cons b t ih =>
      intro i x a h
      cases i with
      | zero =>
          simp only [List.get?] at h
          cases h
          simp only [List.set, List.map, List.sum_cons]
          omega
      | succ j =>
          simp only [List.get?] at h
          have hih := ih j x a h
          simp only [List.set, List.map, List.sum_cons]
          omega

theorem totalMapped_log (p : Profile) (msgs : List LogMsg) :
    totalMapped { p with log := p.log ++ msgs } = totalMapped p := rfl

theorem anonPickLoop_totalMapped (found : List (Nat × Int)) :
    ∀ (p : Profile) (f0 : Nat × Int),
      totalMapped (anonPickLoop p f0 found).1 ≤ totalMapped p + 1 := by
  induction found with
  | nil => intro p f0; simp [anonPickLoop]
  | cons hd rest ih =>
      intro p f0
      obtain ⟨si, lnum⟩ := hd
      unfold anonPickLoop
      rcases hg : p.scripts.get? si with _ | s
      · simp
      · simp only [hg]
        split
        · exact le_trans (ih _ f0) (by rw [totalMapped_log])
        · simp only
          have hsum := sum_map_set p.scripts (fun s => s.mapped_dict_functions.length) si
            { s with mapped_dict_functions := pySetAdd s.mapped_dict_functions lnum } s hg
          have hlen := pySetAdd_length_le s.mapped_dict_functions lnum
          unfold totalMapped
          simp only at hsum ⊢
          omega

theorem get_anon_impl_totalMapped (p : Profile) (f : Function)
    {p' : Profile} {r : Option (Nat × Int)}
    (h : p.get_anon_func_script_line_impl f = .ok (p', r)) :
    totalMapped p' ≤ totalMapped p + 1 := by
  unfold Profile.get_anon_func_script_line_impl at h
  simp only [bind, Except.bind] at h
  rcases hs : anonScan p f with _ | found <;> rw [hs] at h
  · cases h
  · rcases found with _ | ⟨f0, rest⟩
    · simp only [pure, Except.pure, Except.ok.injEq, Prod.mk.injEq] at h
      rw [← h.1]
      omega
    · simp only [Except.ok.injEq] at h
      by_cases hr : rest ≠ []
      · rw [if_pos hr] at h
        have hb := anonPickLoop_totalMapped (f0 :: rest)
          { p with log := p.log ++ [LogMsg.warnMultiAnon] } f0
        rw [totalMapped_log] at hb
        have hfst := congrArg Prod.fst h
        simp only at hfst
        rw [← hfst]
        exact hb
      · rw [if_neg hr] at h
        have hb := anonPickLoop_totalMapped (f0 :: rest) p f0
        have hfst := congrArg Prod.fst h
        simp only at hfst
        rw [← hfst]
        exact hb

theorem anonPickLoop_none_frame (found : List (Nat × Int)) :
    ∀ (p : Profile) (f0 : Nat × Int),
      (anonPickLoop p f0 found).2 = none →
      (anonPickLoop p f0 found).1.scripts = p.scripts ∧
      (anonPickLoop p f0 found).1.anonymous_functions = p.anonymous_functions := by
  induction found with
  | nil =>
      intro p f0 h
      exact Option.noConfusion h
  | cons hd rest ih =>
      intro p f0 h
      obtain ⟨si, lnum⟩ := hd
      unfold anonPickLoop at h ⊢
      rcases hg : p.scripts.get? si with _ | s <;> rw [hg] at h <;> dsimp only at h ⊢
      · exact ⟨rfl, rfl⟩
      · by_cases hmem : lnum ∈ s.mapped_dict_functions
        · rw [if_pos hmem] at h ⊢
          exact ih { p with log := p.log ++ [LogMsg.debugAlreadyMapped] } f0 h
        · rw [if_neg hmem] at h
          exact Option.noConfusion h

theorem get_anon_impl_none_frame (p : Profile) (f : Function) {p' : Profile}
    (h : p.get_anon_func_script_line_impl f = .ok (p', none)) :
    p'.scripts = p.scripts ∧ p'.anonymous_functions = p.anonymous_functions := by
  unfold Profile.get_anon_func_script_line_impl at h
  simp only [bind, Except.bind] at h
  rcases hs : anonScan p f with _ | found <;> rw [hs] at h <;> (try dsimp only at h)
  · exact Except.noConfusion h
  · rcases found with _ | ⟨f0, rest⟩ <;> (try dsimp only at h)
    · simp only [pure, Except.pure, Except.ok.injEq, Prod.mk.injEq] at h
      obtain ⟨h1, _⟩ := h
      rw [← h1]
      exact ⟨rfl, rfl⟩
    · by_cases hr : rest ≠ []
      · rw [if_pos hr] at h
        injection h with h
        have h2 : (anonPickLoop { p with log := p.log ++ [LogMsg.warnMultiAnon] } f0
            (f0 :: rest)).2 = none := by rw [h]
        have hf := anonPickLoop_none_frame (f0 :: rest) _ f0 h2
        rw [h] at hf
        exact hf
      · rw [if_neg hr] at h
        injection h with h
        have h2 : (anonPickLoop p f0 (f0 :: rest)).2 = none := by rw [h]
        have hf := anonPickLoop_none_frame (f0 :: rest) p f0 h2
        rw [h] at hf
        exact hf

/-- Claim C9 (confirmed): a cached anonymous-function name is answered from the
memo without touching the profile; any single lookup grows the union of the
scripts' `mapped_dict_functions` sets by at most one element; a successful
lookup leaves the name memoised, so later lookups of the same name are cache
hits and consume nothing further; and a failed lookup (`None`) consumes
nothing — it leaves every script (hence every `mapped_dict_functions` set) and
the memo unchanged.  Sites are therefore consumed only immediately before a
successful, memoised return, so each distinct Function consumes at most one
site across the whole mapping process, however often `map_functions` retries
it. -/
theorem claim_C9 :
    (∀ (p : Profile) (f : Function) (r : Nat × Int),
        dictGet p.anonymous_functions f.name = some r →
        p.get_anon_func_script_line f = .ok (p, some r)) ∧
    (∀ (p : Profile) (f : Function) (p' : Profile) (r : Option (Nat × Int)),
        p.get_anon_func_script_line f = .ok (p', r) →
        totalMapped p' ≤ totalMapped p + 1 ∧
        (∀ r0 : Nat × Int, r = some r0 →
          dictGet p'.anonymous_functions f.name = some r0)) ∧
    (∀ (p : Profile) (f : Function) (p' : Profile),
        p.get_anon_func_script_line f = .ok (p', none) →
        p'.scripts = p.scripts ∧ p'.anonymous_functions = p.anonymous_functions) := by
  refine ⟨?_, ?_, ?_⟩
  · intro p f r h
    simp [Profile.get_anon_func_script_line, h]
  · intro p f p' r h
    unfold Profile.get_anon_func_script_line at h
    rcases hc : dictGet p.anonymous_functions f.name with _ | r0
    · rw [hc] at h
      simp only [bind, Except.bind] at h
      rcases hi : p.get_anon_func_script_line_impl f with _ | ⟨p1, fi⟩ <;> rw [hi] at h
      · cases h
      · have hle := get_anon_impl_totalMapped p f hi
        rcases fi with _ | ⟨si, lnum⟩
        · simp only [pure, Except.pure, Except.ok.injEq, Prod.mk.injEq] at h
          obtain ⟨h1, h2⟩ := h
          subst h1
          refine ⟨hle, ?_⟩
          intro r0 hr0
          rw [← h2] at hr0
          cases hr0
        · simp only [pure, Except.pure, Except.ok.injEq, Prod.mk.injEq] at h
          obtain ⟨h1, h2⟩ := h
          refine ⟨by rw [← h1]; exact hle, ?_⟩
          intro r0 hr0
          rw [← h2] at hr0
          cases hr0
          rw [← h1]
          exact dictGet_set_self _ _ _
    · rw [hc] at h
      simp only [pure, Except.pure, Except.ok.injEq, Prod.mk.injEq] at h
      obtain ⟨h1, h2⟩ := h
      subst h1
      refine ⟨by omega, ?_⟩
      intro r1 hr1
      rw [← h2] at hr1
      cases hr1
      exact hc
  · intro p f p' h
    unfold Profile.get_anon_func_script_line at h
    rcases hc : dictGet p.anonymous_functions f.name with _ | r0 <;> rw [hc] at h <;>
      (try dsimp only at h)
    · simp only [bind, Except.bind] at h
      rcases hi : p.get_anon_func_script_line_impl f with _ | ⟨p1, fi⟩ <;> rw [hi] at h <;>
        (try dsimp only at h)
      · exact Except.noConfusion h
      · rcases fi with _ | ⟨si, lnum⟩ <;> (try dsimp only at h)
        · simp only [pure, Except.pure, Except.ok.injEq, Prod.mk.injEq] at h
          obtain ⟨h1, _⟩ := h
          subst h1
          exact get_anon_impl_none_frame p f hi
        · simp only [pure, Except.pure, Except.ok.injEq, Prod.mk.injEq] at h
          exact Option.noConfusion h.2
    · simp only [Except.ok.injEq, Prod.mk.injEq] at h
      exact Option.noConfusion h.2

/-- Witness for C9: a cache hit returns the memoised pair and leaves the
profile unchanged, and a fresh successful lookup consumes one site. -/
theorem claim_C9_witness :
    ({ anonymous_functions := [("3", (0, 4))] } : Profile).get_anon_func_script_line
        { name := "3" } = .ok ({ anonymous_functions := [("3", (0, 4))] }, some (0, 4)) :=
  claim_C9.1 { anonymous_functions := [("3", (0, 4))] } { name := "3" } (0, 4) (by decide)

/-! ## Merge lemmas: the profiles component under a falsy sourced count -/

theorem applyFix_noop (tbl : Table) (profs : List Profile) (sourced : Option Int)
    (path : String) (s_lines : PyDict Int Line)
    (hs : truthyInt sourced = false) :
    applyFix tbl profs sourced path s_lines = .ok (tbl, profs) := by
  unfold applyFix
  rw [if_neg]
  intro hc
  rw [hs] at hc
  exact Bool.false_ne_true hc.1

theorem mergeOneScript_profs (tbl : Table) (profs : List Profile) (pi : Nat)
    (item : Script × Nat) (hs : truthyInt item.1.sourced_count = false)
    {tbl' : Table} {profs' : List Profile}
    (h : mergeOneScript (tbl, profs) pi item = .ok (tbl', profs')) :
    profs' = profs := by
  unfold mergeOneScript at h
  simp only [bind, Except.bind] at h
  rcases hm : mergeScriptLines tbl pi item.2 item.1.path
      (match profs.get? pi with
       | some p =>
           match p.scripts.get? item.2 with
           | some s => s.lines
           | none => []
       | none => []) with _ | tbl1 <;> rw [hm] at h
  · cases h
  · dsimp only at h
    rw [applyFix_noop _ _ _ _ _ hs] at h
    simp only [Except.ok.injEq, Prod.mk.injEq] at h
    exact h.2.symm

theorem snd_mem_of_mem_enumFrom (l : List α) :
    ∀ (n : Nat) (e : Nat × α), e ∈ l.enumFrom n → e.2 ∈ l := by
  induction l with
  | nil => intro n e h; cases h
  | cons a t ih =>
      intro n e h
      rw [List.enumFrom] at h
      rcases List.mem_cons.mp h with h | h
      · subst h
        exact List.mem_cons_self _ _
      · exact List.mem_cons_of_mem _ (ih _ _ h)

theorem snd_mem_of_mem_enum (l : List α) (e : Nat × α) (h : e ∈ l.enum) : e.2 ∈ l :=
  snd_mem_of_mem_enumFrom l 0 e h

/-- Every key of the dict comprehension behind `Profile.lines` is one of the
profile's scripts. -/
theorem dedupeScripts_key_mem (ss : List Script) :
    ∀ kv ∈ dedupeScripts ss, kv.1 ∈ ss := by
  have hgen : ∀ (l : List (Nat × Script)) (acc : List (Script × Nat)),
      (∀ kv ∈ acc, kv.1 ∈ ss) → (∀ e ∈ l, e.2 ∈ ss) →
      ∀ kv ∈ l.foldl
        (fun acc e =>
          if acc.any (fun kv => scriptPyEq kv.1 e.2) then
            acc.map (fun kv => if scriptPyEq kv.1 e.2 then (kv.1, e.1) else kv)
          else acc ++ [(e.2, e.1)]) acc, kv.1 ∈ ss := by
    intro l
    induction l with
    | nil =>
        intro acc hacc _ kv hkv
        exact hacc kv hkv
    | cons e t ih =>
        intro acc hacc hl kv hkv
        simp only [List.foldl_cons] at hkv
        refine ih _ ?_ (fun e2 he2 => hl e2 (List.mem_cons_of_mem _ he2)) kv hkv
        intro kv2 hkv2
        split at hkv2
        · rcases List.mem_map.mp hkv2 with ⟨kv3, hkv3, hkv3e⟩
          by_cases hpe : scriptPyEq kv3.1 e.2 = true
          · rw [if_pos hpe] at hkv3e
            rw [← hkv3e]
            exact hacc kv3 hkv3
          · rw [if_neg hpe] at hkv3e
            rw [← hkv3e]
            exact hacc kv3 hkv3
        · rcases List.mem_append.mp hkv2 with h | h
          · exact hacc kv2 h
          · rcases List.mem_singleton.mp h with rfl
            exact hl e (List.mem_cons_self _ _)
  intro kv hkv
  exact hgen ss.enum [] (fun kv h => absurd h (List.not_mem_nil kv))
    (fun e he => snd_mem_of_mem_enum ss e he) kv hkv

theorem foldlM_mergeOneScript_profs (items : List (Script × Nat)) :
    ∀ (tbl : Table) (profs : List Profile) (pi : Nat),
      (∀ item ∈ items, truthyInt item.1.sourced_count = false) →
      ∀ {tbl' : Table} {profs' : List Profile},
        items.foldlM (fun a item => mergeOneScript a pi item) (tbl, profs)
          = .ok (tbl', profs') →
        profs' = profs := by
  induction items with
  | nil =>
      intro tbl profs pi _ tbl' profs' h
      simp only [List.foldlM_nil, pure, Except.pure, Except.ok.injEq, Prod.mk.injEq] at h
      exact h.2.symm
  | cons item rest ih =>
      intro tbl profs pi hfalsy tbl' profs' h
      simp only [List.foldlM_cons, bind, Except.bind] at h
      rcases hone : mergeOneScript (tbl, profs) pi item with _ | ⟨tbl1, profs1⟩ <;>
        rw [hone] at h
      · cases h
      · have h1 := mergeOneScript_profs tbl profs pi item
          (hfalsy item (List.mem_cons_self _ _)) hone
        rw [h1] at h
        exact ih tbl1 profs pi
          (fun it hit => hfalsy it (List.mem_cons_of_mem _ hit)) h

theorem mergeProfile_profs (acc : Table × List Profile) (pi : Nat)
    (hfalsy : ∀ p ∈ acc.2, ∀ s ∈ p.scripts, truthyInt s.sourced_count = false)
    {tbl' : Table} {profs' : List Profile}
    (h : mergeProfile acc pi = .ok (tbl', profs')) : profs' = acc.2 := by
  obtain ⟨tbl, profs⟩ := acc
  unfold mergeProfile at h
  rcases hg : profs.get? pi with _ | p
  · rw [hg] at h
    exact foldlM_mergeOneScript_profs [] tbl profs pi (by intro it hit; cases hit) h
  · rw [hg] at h
    refine foldlM_mergeOneScript_profs _ tbl profs pi ?_ h
    intro item hitem
    have hmem := dedupeScripts_key_mem p.scripts item hitem
    exact hfalsy p (List.get?_mem hg) item.1 hmem

theorem claim_C7_amended_aux (idxs : List Nat) :
    ∀ (tbl : Table) (profs : List Profile),
      (∀ p ∈ profs, ∀ s ∈ p.scripts, truthyInt s.sourced_count = false) →
      ∀ {tbl' : Table} {profs' : List Profile},
        idxs.foldlM mergeProfile (tbl, profs) = .ok (tbl', profs') →
        profs' = profs := by
  induction idxs with
  | nil =>
      intro tbl profs _ tbl' profs' h
      simp only [List.foldlM_nil, pure, Except.pure, Except.ok.injEq, Prod.mk.injEq] at h
      exact h.2.symm
  | cons pi rest ih =>
      intro tbl profs hfalsy tbl' profs' h
      simp only [List.foldlM_cons, bind, Except.bind] at h
      rcases hone : mergeProfile (tbl, profs) pi with _ | ⟨tbl1, profs1⟩ <;> rw [hone] at h
      · cases h
      · have h1 := mergeProfile_profs (tbl, profs) pi hfalsy hone
        rw [h1] at h
        exact ih tbl1 profs hfalsy h

/-! ## Claim C7, amended theorem -/

/-- Claim C7, amended: the merge observes the profiles read-only *except* for
the first-line workaround, which writes a count of 1 through the shallow dict
copy into the owning profile's line-1 `Line` (counterexample above).  When the
workaround can never fire — every script's sourced count falsy — the merged
computation leaves every Profile unchanged, counts and times included. -/
theorem claim_C7_amended :
    ∀ (profs : List Profile) (tbl : Table) (profs' : List Profile),
      (∀ p ∈ profs, ∀ s ∈ p.scripts, truthyInt s.sourced_count = false) →
      mergedLinesFull profs = .ok (tbl, profs') → profs' = profs := by
  intro profs tbl profs' hfalsy h
  exact claim_C7_amended_aux (List.range profs.length) [] profs hfalsy h

/-- The sourced-zero profile used to witness C7's amended claim. -/
def c7WitProf : Profile :=
  { scripts := [{ path := "/w7.vim",
                  lines := [(1, { line := "let a=1", count := some 2 })],
                  sourced_count := some 0 }],
    scripts_by_fname := [("/w7.vim", 0)] }

/-- Witness for C7's amended claim: merging a profile whose script was sourced
zero times returns the profile list unchanged. -/
theorem claim_C7_amended_witness :
    (mergedLinesFull [c7WitProf]).map Prod.snd = .ok [c7WitProf] := by
  rcases hm : mergedLinesFull [c7WitProf] with e | ⟨tbl, profs'⟩
  · have hok : (mergedLinesFull [c7WitProf]).isOk = true := by decide
    rw [hm] at hok
    simp [Except.isOk, Except.toBool] at hok
  · have hp := claim_C7_amended [c7WitProf] tbl profs' (by decide) hm
    simp [Except.map, hp]

/-! ## Key-structure lemmas for claim C3 -/

theorem mem_keys_of_get [DecidableEq κ] {d : PyDict κ α} {k : κ} {v : α}
    (h : dictGet d k = some v) : k ∈ dictKeys d := by
  induction d with
  | nil => simp [dictGet] at h
  | cons kv rest ih =>
      unfold dictGet at h
      by_cases hk : kv.1 = k
      · simp [dictKeys, hk]
      · simp only [hk, if_false] at h
        simp [dictKeys] at ih ⊢
        exact Or.inr (ih h)

theorem get_of_mem_keys [DecidableEq κ] {d : PyDict κ α} {k : κ}
    (h : k ∈ dictKeys d) : ∃ v, dictGet d k = some v := by
  induction d with
  | nil => simp [dictKeys] at h
  | cons kv rest ih =>
      unfold dictGet
      by_cases hk : kv.1 = k
      · exact ⟨kv.2, by simp [hk]⟩
      · simp only [hk, if_false]
        simp only [dictKeys, List.map_cons, List.mem_cons] at h
        rcases h with h | h
        · exact absurd h.symm hk
        · exact ih h

theorem dictKeys_set_of_mem [DecidableEq κ] {d : PyDict κ α} {k : κ} (v : α)
    (h : k ∈ dictKeys d) : dictKeys (dictSet d k v) = dictKeys d := by
  rcases get_of_mem_keys h with ⟨w, hw⟩
  exact dictKeys_set_of_get d k v w hw

theorem dictSet_of_get_none [DecidableEq κ] {d : PyDict κ α} {k : κ} (v : α)
    (h : dictGet d k = none) : dictSet d k v = d ++ [(k, v)] := by
  induction d with
  | nil => simp [dictSet]
  | cons kv rest ih =>
      unfold dictGet at h
      unfold dictSet
      by_cases hk : kv.1 = k
      · simp [hk] at h
      · simp only [hk, if_false] at h ⊢
        rw [ih h]
        simp

theorem listGet_set_self (ls : List α) :
    ∀ (i : Nat) (a x : α), ls.get? i = some a → (ls.set i x).get? i = some x := by
  induction ls with
  | nil => intro i a x h; simp at h
  | cons b t ih =>
      intro i a x h
      cases i with
      | zero => rfl
      | succ j =>
          simp only [List.get?] at h
          simp only [List.set, List.get?]
          exact ih j a x h

theorem listGet_set_ne (ls : List α) :
    ∀ (i j : Nat) (x : α), i ≠ j → (ls.set i x).get? j = ls.get? j := by
  induction ls with
  | nil => intro i j x _; simp
  | cons b t ih =>
      intro i j x hij
      cases i with
      | zero =>
          cases j with
          | zero => exact absurd rfl hij
          | succ l => rfl
      | succ k =>
          cases j with
          | zero => rfl
          | succ l =>
              simp only [List.set, List.get?]
              exact ih k l x (fun hh => hij (by rw [hh]))

theorem listSet_of_get_eq (ls : List α) :
    ∀ (i : Nat) (a : α), ls.get? i = some a → ls.set i a = ls := by
  induction ls with
  | nil => intro i a h; simp at h
  | cons b t ih =>
      intro i a h
      cases i with
      | zero =>
          simp only [List.get?] at h
          cases h
          simp [List.set]
      | succ j =>
          simp only [List.get?] at h
          simp only [List.set]
          rw [ih j a h]

/-- The per-script line-number key lists of a script list. -/
def keysOf (ss : List Script) : List (List Int) :=
  ss.map (fun s => dictKeys s.lines)

theorem keysOf_set (ss : List Script) (si : Nat) (s s' : Script)
    (hget : ss.get? si = some s) (hk : dictKeys s'.lines = dictKeys s.lines) :
    keysOf (ss.set si s') = keysOf ss := by
  unfold keysOf
  rw [List.map_set]
  rw [hk]
  apply listSet_of_get_eq
  rw [List.get?_map, hget]
  rfl

theorem lnumRange_snoc (n : Nat) : lnumRange (n + 1) = lnumRange n ++ [((n : Int) + 1)] := by
  unfold lnumRange
  rw [List.range_succ, List.map_append]
  simp

theorem mem_lnumRange {k : Int} {n : Nat} : k ∈ lnumRange n ↔ 1 ≤ k ∧ k ≤ (n : Int) := by
  unfold lnumRange
  simp only [List.mem_map, List.mem_range]
  constructor
  · rintro ⟨i, hi, rfl⟩
    omega
  · rintro ⟨h1, h2⟩
    refine ⟨(k - 1).toNat, by omega, by omega⟩

theorem goodKeys_nil (path : String) : goodKeys { path := path } := by
  simp [goodKeys, dictKeys, lnumRange]

theorem parse_function_lines (s : Script) (lnum : Int) (line : String) :
    (s.parse_function lnum line).lines = s.lines := by
  unfold Script.parse_function
  rcases matchFuncHeaderRest line with _ | rest
  · rfl
  · simp only
    split <;> rfl

/-! ## The mapping phase preserves every script's key structure -/

/-- Relation between a profile and its state after some mapping steps: the
scripts' line-number key lists are unchanged and the log has only grown. -/
def MapsOk (p p' : Profile) : Prop :=
  keysOf p'.scripts = keysOf p.scripts ∧ ∃ ex, p'.log = p.log ++ ex

theorem MapsOk.refl (p : Profile) : MapsOk p p := ⟨rfl, [], by simp⟩

theorem MapsOk.trans {p q r : Profile} (h1 : MapsOk p q) (h2 : MapsOk q r) :
    MapsOk p r := by
  refine ⟨h2.1.trans h1.1, ?_⟩
  rcases h1.2 with ⟨e1, he1⟩
  rcases h2.2 with ⟨e2, he2⟩
  exact ⟨e1 ++ e2, by rw [he2, he1, List.append_assoc]⟩

theorem anonPickLoop_mapsOk (found : List (Nat × Int)) :
    ∀ (p : Profile) (f0 : Nat × Int), MapsOk p (anonPickLoop p f0 found).1 := by
  induction found with
  | nil => intro p f0; exact MapsOk.refl p
  | cons hd rest ih =>
      intro p f0
      obtain ⟨si, lnum⟩ := hd
      unfold anonPickLoop
      rcases hg : p.scripts.get? si with _ | s
      · exact MapsOk.refl p
      · simp only [hg]
        split
        · refine MapsOk.trans ?_ (ih _ f0)
          exact ⟨rfl, [LogMsg.debugAlreadyMapped], rfl⟩
        · refine ⟨?_, [], by simp⟩
          exact keysOf_set p.scripts si s _ hg rfl

theorem get_anon_impl_mapsOk (p : Profile) (f : Function)
    {p' : Profile} {r : Option (Nat × Int)}
    (h : p.get_anon_func_script_line_impl f = .ok (p', r)) : MapsOk p p' := by
  unfold Profile.get_anon_func_script_line_impl at h
  simp only [bind, Except.bind] at h
  rcases hs : anonScan p f with _ | found <;> rw [hs] at h
  · cases h
  · rcases found with _ | ⟨f0, rest⟩
    · simp only [pure, Except.pure, Except.ok.injEq, Prod.mk.injEq] at h
      rw [← h.1]
      exact MapsOk.refl p
    · simp only [Except.ok.injEq] at h
      have hfst := congrArg Prod.fst h
      simp only at hfst
      rw [← hfst]
      by_cases hr : rest ≠ []
      · rw [if_pos hr]
        refine MapsOk.trans ?_ (anonPickLoop_mapsOk (f0 :: rest) _ f0)
        exact ⟨rfl, [LogMsg.warnMultiAnon], rfl⟩
      · rw [if_neg hr]
        exact anonPickLoop_mapsOk (f0 :: rest) p f0

theorem get_anon_mapsOk (p : Profile) (f : Function)
    {p' : Profile} {r : Option (Nat × Int)}
    (h : p.get_anon_func_script_line f = .ok (p', r)) : MapsOk p p' := by
  unfold Profile.get_anon_func_script_line at h
  rcases hc : dictGet p.anonymous_functions f.name with _ | r0 <;> rw [hc] at h
  · simp only [bind, Except.bind] at h
    rcases hi : p.get_anon_func_script_line_impl f with _ | ⟨p1, fi⟩ <;> rw [hi] at h
    · cases h
    · have hm := get_anon_impl_mapsOk p f hi
      rcases fi with _ | ⟨si, lnum⟩ <;>
        simp only [pure, Except.pure, Except.ok.injEq, Prod.mk.injEq] at h
      · rw [← h.1]
        exact hm
      · rw [← h.1]
        exact hm
  · simp only [pure, Except.pure, Except.ok.injEq, Prod.mk.injEq] at h
    rw [← h.1]
    exact MapsOk.refl p

theorem find_func_mapsOk (p : Profile) (f : Function)
    {p' : Profile} {r : Option (Nat × Int)}
    (h : p.find_func_in_source f = .ok (p', r)) : MapsOk p p' := by
  unfold Profile.find_func_in_source at h
  split at h
  · exact get_anon_mapsOk p f h
  · simp only [bind, Except.bind] at h
    split at h
    · exact Except.noConfusion h
    · rename_i found hf
      rcases found with _ | ⟨f0, rest⟩
      · simp only [pure, Except.pure, Except.ok.injEq, Prod.mk.injEq] at h
        rw [← h.1]
        exact MapsOk.refl p
      · simp only [Except.ok.injEq, Prod.mk.injEq] at h
        rw [← h.1]
        split
        · exact ⟨rfl, [LogMsg.warnMultiFunc], rfl⟩
        · exact MapsOk.refl p

theorem propagateCountAux_keys (newCount : Option Int) (n : Int) :
    ∀ (fuel : Nat) (lines : PyDict Int Line) (i : Int) {lines' : PyDict Int Line},
      propagateCountAux newCount n fuel lines i = .ok lines' →
      dictKeys lines' = dictKeys lines := by
  intro fuel
  induction fuel with
  | zero =>
      intro lines i lines' h
      cases h
      rfl
  | succ r ih =>
      intro lines i lines' h
      unfold propagateCountAux at h
      split at h
      · rcases hg : dictGet lines i with _ | li <;> rw [hg] at h <;> (try dsimp only at h)
        · exact Except.noConfusion h
        · split at h
          · have hk := ih _ _ h
            rw [hk]
            exact dictKeys_set_of_get lines i _ li hg
          · injection h with hh
            rw [← hh]
      · injection h with hh
        rw [← hh]

theorem mapFuncLinesLoop_keys (items : List (Int × Line)) :
    ∀ (script : Script) (script_lnum : Int) (log : List LogMsg)
      {b : Bool} {script' : Script} {msgs : List LogMsg},
      mapFuncLinesLoop script items script_lnum log = .ok (b, script', msgs) →
      dictKeys script'.lines = dictKeys script.lines := by
  induction items with
  | nil =>
      intro script script_lnum log b script' msgs h
      simp only [mapFuncLinesLoop, Except.ok.injEq, Prod.mk.injEq] at h
      rw [← h.2.1]
  | cons item rest ih =>
      intro script script_lnum log b script' msgs h
      obtain ⟨f_lnum, f_line⟩ := item
      unfold mapFuncLinesLoop at h
      dsimp only at h
      rcases hg : dictGet script.lines (script_lnum + f_lnum) with _ | s_line <;>
        rw [hg] at h <;> (try dsimp only at h)
      · simp only [Except.ok.injEq, Prod.mk.injEq] at h
        rw [← h.2.1]
      · have hmem := mem_keys_of_get hg
        split at h
        · simp only [Except.ok.injEq, Prod.mk.injEq] at h
          rw [← h.2.1]
        · simp only [bind, Except.bind] at h
          rcases hcnt : f_line.count with _ | fcount <;> rw [hcnt] at h
          · simp only [pure, Except.pure] at h
            have hk := ih _ _ _ h
            rw [hk]
            exact dictKeys_set_of_mem _ hmem
          · simp only [propagateCount, pure, Except.pure] at h
            split at h
            · exact Except.noConfusion h
            · rename_i lines3 hprop
              have hk3 := propagateCountAux_keys _ _ _ _ _ hprop
              rw [parse_function_lines] at hk3
              rw [dictKeys_set_of_mem _ hmem] at hk3
              have hk := ih _ _ _ h
              rw [hk]
              simp only
              have hmem3 : (script_lnum + f_lnum) ∈ dictKeys lines3 := by
                rw [hk3]
                exact hmem
              rw [dictKeys_set_of_mem _ hmem3, hk3]

theorem map_function_mapsOk (p : Profile) (f : Function)
    {b : Bool} {p' : Profile}
    (h : p.map_function f = .ok (b, p')) : MapsOk p p' := by
  unfold Profile.map_function at h
  simp only [bind, Except.bind] at h
  rcases hsrc : f.source with _ | ⟨si, lnum⟩ <;> rw [hsrc] at h <;> dsimp only at h
  · -- f.source = none: find_func_in_source first
    split at h
    · exact Except.noConfusion h
    · rename_i pr hfind
      obtain ⟨p1, r⟩ := pr
      have hm1 := find_func_mapsOk p f hfind
      dsimp only at h
      rcases r with _ | ⟨si, script_lnum⟩ <;> dsimp only at h
      · simp only [pure, Except.pure, Except.ok.injEq, Prod.mk.injEq] at h
        rw [← h.2]
        exact hm1
      · rcases hg : p1.scripts.get? si with _ | script <;> rw [hg] at h <;>
          (try dsimp only at h)
        · exact Except.noConfusion h
        · split at h
          · exact Except.noConfusion h
          · rename_i res hloop
            obtain ⟨ok, script2, msgs⟩ := res
            dsimp only at h
            simp only [pure, Except.pure, Except.ok.injEq, Prod.mk.injEq] at h
            rw [← h.2]
            refine MapsOk.trans hm1 ⟨?_, msgs, rfl⟩
            exact keysOf_set p1.scripts si script script2 hg
              (mapFuncLinesLoop_keys f.lines script script_lnum [] hloop)
  · -- declared source
    simp only [pure, Except.pure] at h
    (try dsimp only at h)
    rcases hg : p.scripts.get? si with _ | script <;> rw [hg] at h <;>
      (try dsimp only at h)
    · exact Except.noConfusion h
    · split at h
      · exact Except.noConfusion h
      · rename_i res hloop
        obtain ⟨ok, script2, msgs⟩ := res
        dsimp only at h
        simp only [pure, Except.pure, Except.ok.injEq, Prod.mk.injEq] at h
        rw [← h.2]
        refine ⟨?_, msgs, rfl⟩
        exact keysOf_set p.scripts si script script2 hg
          (mapFuncLinesLoop_keys f.lines script lnum [] hloop)

theorem passLoopAux_mapsOk (r : Nat) :
    ∀ (p : Profile) (fns : List Function) (i : Nat)
      {p' : Profile} {fns' : List Function},
      passLoopAux r p fns i = .ok (p', fns') → MapsOk p p' := by
  induction r with
  | zero =>
      intro p fns i p' fns' h
      injection h with hh
      rw [show p' = p from (congrArg Prod.fst hh).symm]
      exact MapsOk.refl p
  | succ r ih =>
      intro p fns i p' fns' h
      unfold passLoopAux at h
      split at h
      · split at h
        · exact Except.noConfusion h
        · rename_i p2 hmf
          exact MapsOk.trans (map_function_mapsOk p _ hmf) (ih _ _ _ h)
        · rename_i p2 hmf
          exact MapsOk.trans (map_function_mapsOk p _ hmf) (ih _ _ _ h)
      · injection h with hh
        rw [show p' = p from (congrArg Prod.fst hh).symm]
        exact MapsOk.refl p

theorem mapFunctionsLoopAux_mapsOk (r : Nat) :
    ∀ (p : Profile) (fns : List Function)
      {p' : Profile} {fns' : List Function},
      mapFunctionsLoopAux r p fns = .ok (p', fns') → MapsOk p p' := by
  induction r with
  | zero =>
      intro p fns p' fns' h
      injection h with hh
      rw [show p' = p from (congrArg Prod.fst hh).symm]
      exact MapsOk.refl p
  | succ r ih =>
      intro p fns p' fns' h
      unfold mapFunctionsLoopAux at h
      split at h
      · injection h with hh
        rw [show p' = p from (congrArg Prod.fst hh).symm]
        exact MapsOk.refl p
      · rcases hpass : passLoop p fns 0 with e | ⟨p2, fns2⟩ <;> rw [hpass] at h <;>
          (try dsimp only at h)
        · exact Except.noConfusion h
        · have hm := passLoopAux_mapsOk (fns.length - 0) p fns 0 hpass
          split at h
          · injection h with hh
            rw [show p' = p2 from (congrArg Prod.fst hh).symm]
            exact hm
          · exact MapsOk.trans hm (ih _ _ h)

theorem map_functions_mapsOk (p : Profile) (fns : List Function)
    {p' : Profile} (h : p.map_functions fns = .ok p') : MapsOk p p' := by
  unfold Profile.map_functions at h
  simp only [bind, Except.bind] at h
  split at h
  · exact Except.noConfusion h
  · rename_i pr hloop
    obtain ⟨p2, leftover⟩ := pr
    have hm := mapFunctionsLoopAux_mapsOk _ _ _ hloop
    simp only [pure, Except.pure, Except.ok.injEq] at h
    rw [← h]
    exact MapsOk.trans hm ⟨rfl, _, rfl⟩

/-! ## Parser invariant: contiguous line-number keys per clean stanza -/

/-- Every parsed script whose stanza is clean (index not in `bad`) has
contiguous keys. -/
def InvAb (bad : List Nat) (st : PState) : Prop :=
  ∀ si s, st.prof.scripts.get? si = some s → si ∉ bad → goodKeys s

/-- The current script (when inside a stanza) is synchronised with `lnum` as
long as its own stanza is clean; while an inner reader is pending it is still
empty. -/
def InvBb (bad : List Nat) (st : PState) : Prop :=
  ∀ si, st.inScript = some si →
    ∃ s, st.prof.scripts.get? si = some s ∧
      (st.mode = PMode.top → si ∉ bad → (s.lines.length : Int) = st.lnum) ∧
      (st.mode ≠ PMode.top → s.lines = [])

theorem InvAb_mono {bad bad2 : List Nat} (hsub : ∀ si, si ∈ bad → si ∈ bad2)
    (st : PState) (h : InvAb bad st) : InvAb bad2 st :=
  fun si s hg hn => h si s hg (fun hm => hn (hsub si hm))

theorem InvBb_mono {bad bad2 : List Nat} (hsub : ∀ si, si ∈ bad → si ∈ bad2)
    (st : PState) (h : InvBb bad st) : InvBb bad2 st := by
  intro si hsi
  obtain ⟨s, hg, ht, hn⟩ := h si hsi
  exact ⟨s, hg, fun hm hni => ht hm (fun hx => hni (hsub si hx)), hn⟩

theorem get_none_of_not_mem_keys [DecidableEq κ] {d : PyDict κ α} {k : κ}
    (h : k ∉ dictKeys d) : dictGet d k = none := by
  rcases hg : dictGet d k with _ | v
  · rfl
  · exact absurd (mem_keys_of_get hg) h

theorem goodKeys_parse_function (s : Script) (lnum : Int) (line : String) :
    goodKeys (s.parse_function lnum line) ↔ goodKeys s := by
  simp [goodKeys, parse_function_lines]

theorem insert_fresh_line (s : Script) (nl : Line) (k : Int)
    (hgood : goodKeys s) (hk : k = (s.lines.length : Int) + 1) :
    dictKeys (dictSet s.lines k nl) = lnumRange (s.lines.length + 1) ∧
    (dictSet s.lines k nl).length = s.lines.length + 1 := by
  have hnotmem : k ∉ dictKeys s.lines := by
    rw [hgood, mem_lnumRange]
    omega
  have hnone := get_none_of_not_mem_keys hnotmem
  rw [dictSet_of_get_none nl hnone]
  constructor
  · unfold goodKeys at hgood
    unfold dictKeys at hgood ⊢
    rw [List.map_append, lnumRange_snoc, hgood, hk]
    simp
  · simp


theorem script_insert_invariants_b
    (bad : List Nat) (st st' : PState) (si : Nat) (s s2 : Script) (nl : Line)
    (hmode : st.mode = PMode.top)
    (hsi : st.inScript = some si)
    (hg : st.prof.scripts.get? si = some s)
    (hm2 : st'.mode = PMode.top)
    (hi2 : st'.inScript = st.inScript)
    (hl2 : st'.lnum = st.lnum + 1)
    (hsc2 : st'.prof.scripts = st.prof.scripts.set si s2)
    (hlines2 : s2.lines = dictSet s.lines (st.lnum + 1) nl)
    (hA : InvAb bad st) (hB : InvBb bad st) :
    InvAb bad st' ∧ InvBb bad st' := by
  obtain ⟨s0, hg0, hlen0, _⟩ := hB si hsi
  rw [hg] at hg0
  injection hg0 with hg0
  subst hg0
  have hclean : si ∉ bad → goodKeys s2 ∧ s2.lines.length = s.lines.length + 1 := by
    intro hni
    have hlen := hlen0 hmode hni
    have hgood := hA si s hg hni
    have hins := insert_fresh_line s nl (st.lnum + 1) hgood (by omega)
    have hlen2 : s2.lines.length = s.lines.length + 1 := by
      rw [hlines2]
      exact hins.2
    refine ⟨?_, hlen2⟩
    unfold goodKeys
    rw [hlines2, hins.2]
    exact hins.1
  constructor
  · intro sj x hgx hnj
    rw [hsc2] at hgx
    by_cases hij : si = sj
    · subst hij
      rw [listGet_set_self _ _ _ _ hg] at hgx
      injection hgx with hgx
      subst hgx
      exact (hclean hnj).1
    · rw [listGet_set_ne _ _ _ _ hij] at hgx
      exact hA sj x hgx hnj
  · intro si2 hsi2
    rw [hi2, hsi] at hsi2
    injection hsi2 with hsi2
    subst hsi2
    refine ⟨s2, ?_, fun _ hni => ?_, fun hcon => absurd hm2 hcon⟩
    · rw [hsc2]
      exact listGet_set_self _ _ _ _ hg
    · have hlen := hlen0 hmode hni
      rw [hl2, (hclean hni).2]
      push_cast
      omega

theorem dataLine_step_b (bad bad2 : List Nat) (st : PState) (line : String) {st' : PState}
    (h : dataLine st line = .ok st') (hmode : st.mode = PMode.top)
    (hsub : ∀ si, si ∈ bad → si ∈ bad2)
    (herr : ∀ si, (∃ e, parse_count_and_times line = .error e) →
      st.inScript = some si → si ∈ bad2) :
    st'.mode = PMode.top ∧ st'.inScript = st.inScript ∧ st'.lnum = st.lnum + 1 ∧
    (InvAb bad st → InvBb bad st → InvAb bad2 st' ∧ InvBb bad2 st') := by
  unfold dataLine at h
  dsimp only at h
  rcases hp : parse_count_and_times line with e | ⟨count, total_time, self_time⟩ <;>
    rw [hp] at h <;> (try dsimp only at h)
  · -- malformed: the open script is tainted, its sync obligation is dropped
    injection h with hh
    subst hh
    refine ⟨hmode, rfl, rfl, ?_⟩
    intro hA hB
    constructor
    · intro sj x hgx hnj
      exact hA sj x hgx (fun hm => hnj (hsub sj hm))
    · intro si2 hsi2
      obtain ⟨s0, hg0, _, _⟩ := hB si2 hsi2
      have hbad : si2 ∈ bad2 := herr si2 ⟨e, hp⟩ hsi2
      exact ⟨s0, hg0, fun _ hni => absurd hbad hni, fun hcon => absurd hmode hcon⟩
  · rcases hsi : st.inScript with _ | si <;> rw [hsi] at h <;> (try dsimp only at h)
    · -- in a function body (or unreachable idle): scripts untouched
      rcases hfn : st.inFunction with _ | f <;> rw [hfn] at h <;> (try dsimp only at h) <;>
        injection h with hh <;> subst hh
      · refine ⟨hmode, rfl, rfl, ?_⟩
        intro hA hB
        refine ⟨InvAb_mono hsub _ hA, ?_⟩
        intro si2 hsi2
        exact Option.noConfusion hsi2
      · refine ⟨hmode, rfl, rfl, ?_⟩
        intro hA hB
        refine ⟨InvAb_mono hsub _ hA, ?_⟩
        intro si2 hsi2
        exact Option.noConfusion hsi2
    · rcases hg : st.prof.scripts.get? si with _ | s <;> rw [hg] at h <;>
        (try dsimp only at h)
      · exact Except.noConfusion h
      · simp only [bind, Except.bind, pure, Except.pure] at h
        -- the optional count inheritance: either way a line is inserted
        split at h
        · rcases hprev : dictGet s.lines (st.lnum + 1 - 1) with _ | prev <;>
            rw [hprev] at h <;> (try dsimp only at h)
          · exact Except.noConfusion h
          · injection h with hh
            subst hh
            refine ⟨hmode, rfl, rfl, fun hA hB => ?_⟩
            refine script_insert_invariants_b bad2 st _ si s _
              { line := pyDrop line 28, count := prev.count,
                total_time := total_time, self_time := self_time }
              hmode hsi hg hmode hsi.symm rfl rfl ?_
              (InvAb_mono hsub st hA) (InvBb_mono hsub st hB)
            split
            · rw [parse_function_lines]
            · rfl
        · injection h with hh
          subst hh
          refine ⟨hmode, rfl, rfl, fun hA hB => ?_⟩
          refine script_insert_invariants_b bad2 st _ si s _
            { line := pyDrop line 28, count := count,
              total_time := total_time, self_time := self_time }
            hmode hsi hg hmode hsi.symm rfl rfl ?_
            (InvAb_mono hsub st hA) (InvBb_mono hsub st hB)
          split
          · rw [parse_function_lines]
          · rfl

theorem stepLine_step_b (bad : List Nat) (st : PState) (raw : String) {st' : PState}
    (h : stepLine st raw = .ok st') (hA : InvAb bad st) (hB : InvBb bad st) :
    InvAb (stepBad st raw bad) st' ∧ InvBb (stepBad st raw bad) st' := by
  unfold stepLine at h
  dsimp only at h
  rcases hm : st.mode with _ | si0 <;> rw [hm] at h <;> (try dsimp only at h)
  · -- top: the main loop body
    split at h
    · -- blank line: stanza ends and no warning is possible
      rename_i hbl
      have hsb : stepBad st raw bad = bad := by
        simp [stepBad, taintStep, hm, hbl]
      rw [hsb]
      injection h with hh
      subst hh
      refine ⟨fun si s hg hn => hA si s hg hn, ?_⟩
      intro si2 hsi2
      exact Option.noConfusion hsi2
    · rename_i hbl
      split at h
      · -- data line inside a stanza
        rename_i hsome
        have hsub : ∀ si, si ∈ bad → si ∈ stepBad st raw bad := by
          intro si hmem
          unfold stepBad
          split
          · rcases hx : st.inScript with _ | sj <;> dsimp only
            · exact hmem
            · exact List.mem_append_left _ hmem
          · exact hmem
        have herr : ∀ si, (∃ e, parse_count_and_times (rstripCRLF raw) = .error e) →
            st.inScript = some si → si ∈ stepBad st raw bad := by
          intro si he hsi
          obtain ⟨e, hpe⟩ := he
          unfold stepBad taintStep
          rw [hm]
          dsimp only
          rw [if_neg hbl, if_pos hsome, hpe]
          dsimp only
          rw [hsi]
          simp
        have hd := dataLine_step_b bad (stepBad st raw bad) _ (rstripCRLF raw) h rfl
          hsub herr
        refine hd.2.2.2 (fun si s hg hn => hA si s hg hn) ?_
        intro si2 hsi2
        obtain ⟨s0, hg0, htop, _⟩ := hB si2 hsi2
        exact ⟨s0, hg0, fun _ hni => htop hm hni, fun hcon => absurd rfl hcon⟩
      · rename_i hguard
        have hsb : stepBad st raw bad = bad := by
          unfold stepBad taintStep
          rw [hm]
          dsimp only
          rw [if_neg hbl, if_neg hguard]
          rfl
        rw [hsb]
        split at h
        · -- SCRIPT header: a fresh empty script is appended
          injection h with hh
          subst hh
          constructor
          · intro sj x hgx hnj
            by_cases hlt : sj < st.prof.scripts.length
            · rw [List.get?_append hlt] at hgx
              exact hA sj x hgx hnj
            · rw [List.get?_append_right (Nat.le_of_not_lt hlt)] at hgx
              rcases hd : sj - st.prof.scripts.length with _ | k <;> rw [hd] at hgx
              · injection hgx with hgx
                rw [← hgx]
                exact goodKeys_nil _
              · simp [List.get?] at hgx
          · intro si2 hsi2
            injection hsi2 with hsi2
            subst hsi2
            refine ⟨_, List.get?_concat_length _ _, fun hcon => PMode.noConfusion hcon,
              fun _ => rfl⟩
        · split at h
          · -- FUNCTION header: unreachable with a script open
            injection h with hh
            subst hh
            refine ⟨fun si s hg hn => hA si s hg hn, ?_⟩
            intro si2 hsi2
            have hsome2 : st.inScript.isSome := by
              have hsi3 : st.inScript = some si2 := hsi2
              rw [hsi3]
              rfl
            exact absurd (Or.inl hsome2) hguard
          · -- unrecognised line: state unchanged
            injection h with hh
            subst hh
            refine ⟨fun si s hg hn => hA si s hg hn, ?_⟩
            intro si2 hsi2
            obtain ⟨s0, hg0, htop, _⟩ := hB si2 hsi2
            exact ⟨s0, hg0, fun _ hni => htop hm hni, fun hcon => absurd rfl hcon⟩
  · -- expectSourced: the `Sourced N times` line
    have hsb : stepBad st raw bad = bad := by
      simp [stepBad, taintStep, hm]
    rw [hsb]
    rcases hms : matchSourcedTimes raw with _ | n <;> rw [hms] at h <;> (try dsimp only at h)
    · exact Except.noConfusion h
    · injection h with hh
      subst hh
      constructor
      · intro sj x hgx hnj
        unfold updateScriptAt at hgx
        rcases hgi : st.prof.scripts.get? si0 with _ | s <;> simp only [hgi] at hgx
        · exact hA sj x hgx hnj
        · by_cases hij : si0 = sj
          · subst hij
            rw [listGet_set_self _ _ _ _ hgi] at hgx
            injection hgx with hgx
            subst hgx
            exact hA si0 s hgi hnj
          · rw [listGet_set_ne _ _ _ _ hij] at hgx
            exact hA sj x hgx hnj
      · intro si2 hsi2
        obtain ⟨s0, hg0, _, hnt⟩ := hB si2 hsi2
        have hlines0 : s0.lines = [] := by
          apply hnt
          rw [hm]
          exact fun hco => PMode.noConfusion hco
        unfold updateScriptAt
        rcases hgi : st.prof.scripts.get? si0 with _ | s
        · exact ⟨s0, hg0, fun hcon => PMode.noConfusion hcon, fun _ => hlines0⟩
        · by_cases hij : si0 = si2
          · subst hij
            rw [hg0] at hgi
            injection hgi with hgi
            subst hgi
            refine ⟨_, listGet_set_self _ _ _ _ hg0, fun hcon => PMode.noConfusion hcon,
              fun _ => hlines0⟩
          · refine ⟨s0, ?_, fun hcon => PMode.noConfusion hcon, fun _ => hlines0⟩
            rw [listGet_set_ne _ _ _ _ hij]
            exact hg0
  · -- skipCountScript: wait for the `count` column header
    have hsb : stepBad st raw bad = bad := by
      simp [stepBad, taintStep, hm]
    rw [hsb]
    split at h <;> injection h with hh <;> subst hh
    · refine ⟨fun si s hg hn => hA si s hg hn, ?_⟩
      intro si2 hsi2
      obtain ⟨s0, hg0, _, hnt⟩ := hB si2 hsi2
      have hlines0 : s0.lines = [] := by
        apply hnt
        rw [hm]
        exact fun hco => PMode.noConfusion hco
      refine ⟨s0, hg0, fun _ _ => ?_, fun hcon => absurd rfl hcon⟩
      rw [hlines0]
      rfl
    · refine ⟨fun si s hg hn => hA si s hg hn, ?_⟩
      intro si2 hsi2
      obtain ⟨s0, hg0, _, hnt⟩ := hB si2 hsi2
      have hlines0 : s0.lines = [] := by
        apply hnt
        rw [hm]
        exact fun hco => PMode.noConfusion hco
      exact ⟨s0, hg0, fun hcon => PMode.noConfusion hcon, fun _ => hlines0⟩
  · -- funcHeader: `count` header, `Defined:` line, or other header noise
    have hsb : stepBad st raw bad = bad := by
      simp [stepBad, taintStep, hm]
    rw [hsb]
    have hnt2 : ∀ si2, st.inScript = some si2 →
        ∃ s0, st.prof.scripts.get? si2 = some s0 ∧ s0.lines = [] := by
      intro si2 hsi2
      obtain ⟨s0, hg0, _, hnt⟩ := hB si2 hsi2
      refine ⟨s0, hg0, ?_⟩
      apply hnt
      rw [hm]
      exact fun hco => PMode.noConfusion hco
    split at h
    · injection h with hh
      subst hh
      refine ⟨fun si s hg hn => hA si s hg hn, ?_⟩
      intro si2 hsi2
      obtain ⟨s0, hg0, hlines0⟩ := hnt2 si2 hsi2
      refine ⟨s0, hg0, fun _ _ => ?_, fun hcon => absurd rfl hcon⟩
      rw [hlines0]
      rfl
    · split at h
      · rcases hfn : st.inFunction with _ | f <;> rw [hfn] at h <;> (try dsimp only at h)
        · exact Except.noConfusion h
        · simp only [bind, Except.bind] at h
          rcases hhd : handleDefined st.prof.scripts_by_fname f raw with e | f2 <;>
            rw [hhd] at h <;> (try dsimp only at h)
          · exact Except.noConfusion h
          · injection h with hh
            subst hh
            refine ⟨fun si s hg hn => hA si s hg hn, ?_⟩
            intro si2 hsi2
            obtain ⟨s0, hg0, hlines0⟩ := hnt2 si2 hsi2
            exact ⟨s0, hg0, fun hcon => PMode.noConfusion hcon, fun _ => hlines0⟩
      · injection h with hh
        subst hh
        refine ⟨fun si s hg hn => hA si s hg hn, ?_⟩
        intro si2 hsi2
        obtain ⟨s0, hg0, hlines0⟩ := hnt2 si2 hsi2
        exact ⟨s0, hg0, fun hcon => PMode.noConfusion hcon, fun _ => hlines0⟩

theorem parseLoop_clean (input : List String) : ∀ (st : PState) (bad : List Nat)
    (st' : PState), parseLoop st input = .ok st' →
    InvAb bad st → InvBb bad st →
    InvAb (taintedScripts st bad input) st' := by
  induction input with
  | nil =>
      intro st bad st' h hA hB
      unfold parseLoop at h
      rcases hsm : st.mode <;> rw [hsm] at h <;> (try exact Except.noConfusion h)
      injection h with hh
      subst hh
      exact hA
  | cons line rest ih =>
      intro st bad st' h hA hB
      unfold parseLoop at h
      simp only [bind, Except.bind] at h
      rcases hs1 : stepLine st line with e | st1 <;> rw [hs1] at h <;> (try dsimp only at h)
      · exact Except.noConfusion h
      · obtain ⟨hA1, hB1⟩ := stepLine_step_b bad st line hs1 hA hB
        have hrec := ih st1 (stepBad st line bad) st' h hA1 hB1
        have heq : taintedScripts st bad (line :: rest)
            = taintedScripts st1 (stepBad st line bad) rest := by
          conv_lhs => unfold taintedScripts
          rw [hs1]
        rw [heq]
        exact hrec

theorem goodKeys_of_keysOf_eq_at {ss ss' : List Script}
    (hk : keysOf ss' = keysOf ss) (i : Nat) (s' : Script)
    (hget : ss'.get? i = some s')
    (hgood : ∀ s, ss.get? i = some s → goodKeys s) : goodKeys s' := by
  have hmap : (keysOf ss').get? i = (keysOf ss).get? i := by rw [hk]
  unfold keysOf at hmap
  rw [List.get?_map, List.get?_map, hget] at hmap
  rcases hget0 : ss.get? i with _ | s
  · rw [hget0] at hmap
    simp at hmap
  · rw [hget0] at hmap
    simp only [Option.map_some'] at hmap
    injection hmap with hmap
    have hgood := hgood s hget0
    unfold goodKeys at hgood ⊢
    have hlen : s'.lines.length = s.lines.length := by
      have h1 : (dictKeys s'.lines).length = (dictKeys s.lines).length := by rw [hmap]
      simpa [dictKeys] using h1
    rw [hmap, hlen, hgood]

/-- Claim C3, amended: after `Profile.parse` completes, every script whose own
stanza had no malformed (warned-and-skipped) data line — its index is not in
`malformedStanzas input` — has line-number keys exactly `1, …, max` with no
gaps, even when other stanzas of the same profile had malformed lines.  (The
counterexample shows a malformed line leaves a permanent gap in its own
stanza: `lnum` is incremented before the failing parse and never rolled
back.) -/
theorem claim_C3_amended (input : List String) (p : Profile)
    (h : Profile.parse input = .ok p) :
    ∀ si s, p.scripts.get? si = some s → si ∉ malformedStanzas input → goodKeys s := by
  unfold Profile.parse at h
  simp only [bind, Except.bind] at h
  rcases hpl : parseLoop {} input with e | st <;> rw [hpl] at h <;> (try dsimp only at h)
  · exact Except.noConfusion h
  · obtain ⟨hkeys, _, _⟩ := map_functions_mapsOk _ _ h
    have hA0 : InvAb [] ({} : PState) := by
      intro si s hg _
      exact Option.noConfusion hg
    have hB0 : InvBb [] ({} : PState) := fun si hsi => Option.noConfusion hsi
    have hclean := parseLoop_clean input {} [] st hpl hA0 hB0
    intro si s hget hnot
    exact goodKeys_of_keysOf_eq_at hkeys si s hget (fun s0 hg0 => hclean si s0 hg0 hnot)

/-- Witness for C3's amended claim at a two-line input whose single stanza is
clean. -/
theorem claim_C3_amended_witness :
    Profile.parse c3OkInput = .ok c3OkProfile ∧
    c3OkProfile.scripts.get? 0 = some c3OkScript ∧
    (0 : Nat) ∉ malformedStanzas c3OkInput ∧
    goodKeys c3OkScript :=
  ⟨by decide, by decide, by decide,
   claim_C3_amended c3OkInput c3OkProfile (by decide) 0 c3OkScript (by decide) (by decide)⟩

theorem merge_lines_eq (line1 line2 : Line) (h : line1.line = line2.line) :
    merge_lines line1 line2 =
      .ok { line := line1.line, count := cntAdd line1.count line2.count } := by
  unfold merge_lines
  rw [if_neg (by simp [h])]
  cases h1 : line1.count <;> cases h2 : line2.count <;> simp [cntAdd]

theorem foldCounts_snoc (xs : List (Option Int)) (c : Option Int) :
    foldCounts (xs ++ [c]) = cntCombine (foldCounts xs) c := by
  unfold foldCounts
  rw [List.foldl_append]
  rfl

theorem cntCombine_rightComm : RightCommutative cntCombine := by
  refine RightCommutative.mk (fun b a1 a2 => ?_)
  rcases b with _ | x
  · cases a1 <;> cases a2 <;> simp [cntCombine, cntAdd, Int.add_comm]
  · cases x <;> cases a1 <;> cases a2 <;> simp [cntCombine, cntAdd] <;> omega

theorem foldCounts_perm {cs1 cs2 : List (Option Int)} (h : cs1.Perm cs2) :
    foldCounts cs1 = foldCounts cs2 := by
  unfold foldCounts
  exact @List.Perm.foldl_eq _ _ cntCombine cs1 cs2 cntCombine_rightComm h none

theorem dictGet_map_val [DecidableEq κ] (f : α → β) (d : PyDict κ α) (k : κ) :
    dictGet (d.map (fun kv => (kv.1, f kv.2))) k = (dictGet d k).map f := by
  induction d with
  | nil => rfl
  | cons kv rest ih =>
      obtain ⟨k0, v0⟩ := kv
      by_cases hk : k0 = k
      · subst hk
        simp [dictGet]
      · simp [dictGet, hk, ih]

theorem contribsAt_append (a b : List (String × PyDict Int Line)) (path : String) (l : Int) :
    contribsAt (a ++ b) path l = contribsAt a path l ++ contribsAt b path l := by
  unfold contribsAt
  rw [List.filter_append, List.filterMap_append]

theorem textAgree_append_left {a b : List (String × PyDict Int Line)}
    (h : TextAgree (a ++ b)) : TextAgree a := by
  intro path l c1 c2 h1 h2
  exact h path l c1 c2 (by rw [contribsAt_append]; exact List.mem_append_left _ h1)
    (by rw [contribsAt_append]; exact List.mem_append_left _ h2)

theorem textAgree_perm {a b : List (String × PyDict Int Line)}
    (hperm : ∀ path l, (contribsAt a path l).Perm (contribsAt b path l))
    (h : TextAgree a) : TextAgree b := by
  intro path l c1 c2 h1 h2
  exact h path l c1 c2 ((hperm path l).mem_iff.mpr h1) ((hperm path l).mem_iff.mpr h2)

theorem mergeEntries_char : ∀ (pairs : PyDict Int Line) (cur : PyDict Int MLine),
    (dictKeys pairs).Nodup →
    (∀ l ln old, dictGet pairs l = some ln → dictGet cur l = some old →
      old.val.line = ln.line) →
    ∃ cur', mergeEntries cur pairs = .ok cur' ∧
      ∀ l : Int,
        match dictGet pairs l, dictGet cur l with
        | none, _ => dictGet cur' l = dictGet cur l
        | some ln, none => dictGet cur' l = some { val := ln, origin := none }
        | some ln, some old => dictGet cur' l = some { val := { line := old.val.line, count := cntAdd old.val.count ln.count }, origin := none } := by
  intro pairs
  induction pairs with
  | nil =>
      intro cur _ _
      exact ⟨cur, rfl, fun l => rfl⟩
  | cons pr rest ih =>
      obtain ⟨l0, ln0⟩ := pr
      intro cur hnd hcmp
      have hnd' : (l0 :: dictKeys rest).Nodup := by simpa [dictKeys] using hnd
      have hnd0 : l0 ∉ dictKeys rest := (List.nodup_cons.mp hnd').1
      have hndr : (dictKeys rest).Nodup := (List.nodup_cons.mp hnd').2
      have hget0 : dictGet ((l0, ln0) :: rest) l0 = some ln0 := by simp [dictGet]
      have hrest0 : dictGet rest l0 = none := get_none_of_not_mem_keys hnd0
      have hconsne : ∀ l : Int, l ≠ l0 → dictGet ((l0, ln0) :: rest) l = dictGet rest l := by
        intro l hl
        simp only [dictGet]
        rw [if_neg (fun he : l0 = l => hl he.symm)]
      rcases hc0 : dictGet cur l0 with _ | old
      · -- no entry at the head key: insert a fresh copy
        have hcmp1 : ∀ (l : Int) (ln : Line) (old : MLine), dictGet rest l = some ln →
            dictGet (dictSet cur l0 { val := ln0, origin := none }) l = some old →
            old.val.line = ln.line := by
          intro l ln old hr hgc
          have hl : l ≠ l0 := by
            intro he
            subst he
            rw [hrest0] at hr
            exact Option.noConfusion hr
          rw [dictGet_set_ne cur l0 l _ hl] at hgc
          exact hcmp l ln old (by rw [hconsne l hl]; exact hr) hgc
        obtain ⟨cur', hrun, hchar⟩ := ih (dictSet cur l0 { val := ln0, origin := none }) hndr hcmp1
        refine ⟨cur', ?_, ?_⟩
        · unfold mergeEntries
          rw [hc0]
          simp only [bind, Except.bind, pure, Except.pure]
          exact hrun
        · intro l
          by_cases hl : l = l0
          · subst hl
            simp only [hget0, hc0]
            have hc := hchar l
            rw [hrest0] at hc
            simp only at hc
            rw [hc, dictGet_set_self]
          · have h1 := hchar l
            rw [dictGet_set_ne cur l0 l _ hl] at h1
            simp only [hconsne l hl]
            exact h1
      · -- existing entry: `merge_lines` combines the counts
        have htx : old.val.line = ln0.line := hcmp l0 ln0 old hget0 hc0
        have hcmp2 : ∀ (l : Int) (ln : Line) (old2 : MLine), dictGet rest l = some ln →
            dictGet (dictSet cur l0 { val := { line := old.val.line, count := cntAdd old.val.count ln0.count }, origin := none }) l = some old2 →
            old2.val.line = ln.line := by
          intro l ln old2 hr hgc
          have hl : l ≠ l0 := by
            intro he
            subst he
            rw [hrest0] at hr
            exact Option.noConfusion hr
          rw [dictGet_set_ne cur l0 l _ hl] at hgc
          exact hcmp l ln old2 (by rw [hconsne l hl]; exact hr) hgc
        obtain ⟨cur', hrun, hchar⟩ := ih
          (dictSet cur l0 { val := { line := old.val.line, count := cntAdd old.val.count ln0.count }, origin := none }) hndr hcmp2
        refine ⟨cur', ?_, ?_⟩
        · unfold mergeEntries
          rw [hc0]
          simp only [bind, Except.bind, pure, Except.pure]
          rw [merge_lines_eq old.val ln0 htx]
          simp only
          exact hrun
        · intro l
          by_cases hl : l = l0
          · subst hl
            simp only [hget0, hc0]
            have hc := hchar l
            rw [hrest0] at hc
            simp only at hc
            rw [hc, dictGet_set_self]
          · have h1 := hchar l
            rw [dictGet_set_ne cur l0 l _ hl] at h1
            simp only [hconsne l hl]
            exact h1

theorem contribsAt_single_self (path : String) (sl : PyDict Int Line) (l : Int) :
    contribsAt [(path, sl)] path l =
      match dictGet sl l with | some v => [v] | none => [] := by
  rcases h : dictGet sl l <;> simp [contribsAt, h]

theorem contribsAt_single_other {path p' : String} (hp : p' ≠ path)
    (sl : PyDict Int Line) (l : Int) : contribsAt [(path, sl)] p' l = [] := by
  have hne2 : ¬ (path = p') := fun he => hp he.symm
  simp [contribsAt, hne2]

theorem filter_single_other {path p' : String} (hp : p' ≠ path) (sl : PyDict Int Line) :
    ([(path, sl)] : List (String × PyDict Int Line)).filter (fun it => it.1 = p') = [] := by
  have hne2 : ¬ (path = p') := fun he => hp he.symm
  simp [hne2]

theorem countAt_set_ne (tbl : Table) (k k' : String) (X : PyDict Int MLine) (l : Int)
    (hp : k' ≠ k) : countAt (dictSet tbl k X) k' l = countAt tbl k' l := by
  unfold countAt
  rw [dictGet_set_ne tbl k k' _ hp]

theorem TblInv_set_other (its : List (String × PyDict Int Line)) (tbl : Table)
    (hinv : TblInv its tbl) (path : String) (X : PyDict Int MLine)
    (sl : PyDict Int Line) (p' : String) (hp : p' ≠ path) :
    (dictGet (dictSet tbl path X) p' = none ↔
      (its ++ [(path, sl)]).filter (fun it => it.1 = p') = []) ∧
    ∀ l : Int,
      countAt (dictSet tbl path X) p' l =
        foldCounts ((contribsAt (its ++ [(path, sl)]) p' l).map Line.count) ∧
      ∀ d e, dictGet (dictSet tbl path X) p' = some d → dictGet d l = some e →
        ∃ c ∈ contribsAt (its ++ [(path, sl)]) p' l, e.val.line = c.line := by
  have hbase := hinv p'
  constructor
  · rw [dictGet_set_ne tbl path p' _ hp, List.filter_append, filter_single_other hp,
      List.append_nil]
    exact hbase.1
  · intro l
    constructor
    · rw [countAt_set_ne tbl path p' X l hp, contribsAt_append,
        contribsAt_single_other hp, List.append_nil]
      exact (hbase.2 l).1
    · intro d e hd he
      rw [dictGet_set_ne tbl path p' _ hp] at hd
      obtain ⟨c, hc, he2⟩ := (hbase.2 l).2 d e hd he
      exact ⟨c, by rw [contribsAt_append]; exact List.mem_append_left _ hc, he2⟩

theorem mergeScriptLines_inv (its : List (String × PyDict Int Line))
    (tbl : Table) (hinv : TblInv its tbl)
    (pi siVal : Nat) (path : String) (s_lines : PyDict Int Line)
    (hnodup : (dictKeys s_lines).Nodup)
    (htext : TextAgree (its ++ [(path, s_lines)])) :
    ∃ tbl', mergeScriptLines tbl pi siVal path s_lines = .ok tbl' ∧
      TblInv (its ++ [(path, s_lines)]) tbl' := by
  unfold mergeScriptLines
  rcases hgt : dictGet tbl path with _ | cur
  · -- new path: the shallow dict copy is installed
    have hfilnil : its.filter (fun it => it.1 = path) = [] := (hinv path).1.mp hgt
    have hnilc : ∀ l, contribsAt its path l = [] := by
      intro l
      unfold contribsAt
      rw [hfilnil]
      rfl
    refine ⟨_, rfl, ?_⟩
    intro p'
    by_cases hp : path = p'
    · subst hp
      constructor
      · rw [dictGet_set_self]
        constructor
        · intro hco
          exact Option.noConfusion hco
        · intro hfil
          rw [List.filter_append, hfilnil] at hfil
          simp at hfil
      · intro l
        constructor
        · unfold countAt
          rw [dictGet_set_self]
          show (dictGet (s_lines.map (fun kv => (kv.1,
              ({ val := kv.2, origin := some (pi, siVal) } : MLine)))) l).map
              (fun e => e.val.count) = _
          rw [dictGet_map_val (fun v => ({ val := v, origin := some (pi, siVal) } : MLine)) s_lines l,
            contribsAt_append, hnilc l, List.nil_append, contribsAt_single_self]
          rcases hsl : dictGet s_lines l with _ | v
          · rfl
          · rfl
        · intro d e hd he
          rw [dictGet_set_self] at hd
          injection hd with hd
          subst hd
          rw [dictGet_map_val (fun v => ({ val := v, origin := some (pi, siVal) } : MLine)) s_lines l] at he
          rcases hsl : dictGet s_lines l with _ | v <;> rw [hsl] at he
          · exact Option.noConfusion he
          · injection he with he
            subst he
            refine ⟨v, ?_, rfl⟩
            rw [contribsAt_append, hnilc l, List.nil_append, contribsAt_single_self, hsl]
            exact List.mem_singleton.mpr rfl
    · exact TblInv_set_other its tbl hinv path _ s_lines p' (fun he => hp he.symm)
  · -- existing path: entry-wise merge
    have hfilne : ¬ its.filter (fun it => it.1 = path) = [] := by
      intro hfil
      rw [← (hinv path).1] at hfil
      rw [hgt] at hfil
      exact Option.noConfusion hfil
    have hcmp : ∀ l ln old, dictGet s_lines l = some ln → dictGet cur l = some old →
        old.val.line = ln.line := by
      intro l ln old hs hcu
      obtain ⟨c, hc, hline⟩ := ((hinv path).2 l).2 cur old hgt hcu
      have hcnew : ln ∈ contribsAt (its ++ [(path, s_lines)]) path l := by
        rw [contribsAt_append]
        apply List.mem_append_right
        rw [contribsAt_single_self, hs]
        exact List.mem_singleton.mpr rfl
      have hcold : c ∈ contribsAt (its ++ [(path, s_lines)]) path l := by
        rw [contribsAt_append]
        exact List.mem_append_left _ hc
      rw [hline]
      exact htext path l c ln hcold hcnew
    obtain ⟨cur', hrun, hchar⟩ := mergeEntries_char s_lines cur hnodup hcmp
    refine ⟨dictSet tbl path cur', ?_, ?_⟩
    · simp only [bind, Except.bind]
      rw [hrun]
    · intro p'
      by_cases hp : path = p'
      · subst hp
        constructor
        · rw [dictGet_set_self]
          constructor
          · intro hco
            exact Option.noConfusion hco
          · intro hfil
            rw [List.filter_append] at hfil
            rcases List.append_eq_nil.mp hfil with ⟨h1, _⟩
            exact (hfilne h1).elim
        · intro l
          have hchar_l := hchar l
          have hcnt : (dictGet cur l).map (fun e => e.val.count) =
              foldCounts ((contribsAt its path l).map Line.count) := by
            have h0 := ((hinv path).2 l).1
            unfold countAt at h0
            rw [hgt] at h0
            exact h0
          constructor
          · have hlhs : countAt (dictSet tbl path cur') path l =
                (dictGet cur' l).map (fun e => e.val.count) := by
              unfold countAt
              rw [dictGet_set_self]
              rfl
            rw [hlhs, contribsAt_append, contribsAt_single_self]
            rcases hsl : dictGet s_lines l with _ | ln <;> rw [hsl] at hchar_l
            · simp only at hchar_l
              rw [hchar_l]
              dsimp only
              rw [List.append_nil]
              exact hcnt
            · rcases hcl : dictGet cur l with _ | old <;> rw [hcl] at hchar_l <;>
                simp only at hchar_l
              · rw [hchar_l]
                rw [hcl] at hcnt
                simp only [Option.map_none'] at hcnt
                dsimp only
                rw [List.map_append, List.map_cons, List.map_nil, foldCounts_snoc, ← hcnt]
                rfl
              · rw [hchar_l]
                rw [hcl] at hcnt
                simp only [Option.map_some'] at hcnt
                dsimp only
                rw [List.map_append, List.map_cons, List.map_nil, foldCounts_snoc, ← hcnt]
                rfl
          · intro d e hd he
            rw [dictGet_set_self] at hd
            injection hd with hd
            subst hd
            rcases hsl : dictGet s_lines l with _ | ln <;> rw [hsl] at hchar_l
            · simp only at hchar_l
              rw [hchar_l] at he
              obtain ⟨c, hc, he2⟩ := ((hinv path).2 l).2 cur e hgt he
              refine ⟨c, ?_, he2⟩
              rw [contribsAt_append]
              exact List.mem_append_left _ hc
            · rcases hcl : dictGet cur l with _ | old <;> rw [hcl] at hchar_l <;>
                simp only at hchar_l <;> rw [hchar_l] at he <;> injection he with he <;>
                subst he
              · refine ⟨ln, ?_, rfl⟩
                rw [contribsAt_append]
                apply List.mem_append_right
                rw [contribsAt_single_self, hsl]
                exact List.mem_singleton.mpr rfl
              · obtain ⟨c, hc, he2⟩ := ((hinv path).2 l).2 cur old hgt hcl
                refine ⟨c, ?_, he2⟩
                rw [contribsAt_append]
                exact List.mem_append_left _ hc
      · exact TblInv_set_other its tbl hinv path _ s_lines p' (fun he => hp he.symm)

theorem mergeOneScript_inv (its : List (String × PyDict Int Line))
    (tbl : Table) (profs : List Profile) (pi : Nat) (item : Script × Nat)
    (hinv : TblInv its tbl)
    (hfalsy : truthyInt item.1.sourced_count = false)
    (hnodup : (dictKeys (itemLines profs pi item.2)).Nodup)
    (htext : TextAgree (its ++ [(item.1.path, itemLines profs pi item.2)])) :
    ∃ tbl', mergeOneScript (tbl, profs) pi item = .ok (tbl', profs) ∧
      TblInv (its ++ [(item.1.path, itemLines profs pi item.2)]) tbl' := by
  obtain ⟨tbl', hrun, hinv'⟩ := mergeScriptLines_inv its tbl hinv pi item.2 item.1.path
    (itemLines profs pi item.2) hnodup htext
  refine ⟨tbl', ?_, hinv'⟩
  show (do
    let t ← mergeScriptLines tbl pi item.2 item.1.path (itemLines profs pi item.2)
    applyFix t profs item.1.sourced_count item.1.path (itemLines profs pi item.2))
      = .ok (tbl', profs)
  simp only [bind, Except.bind]
  rw [hrun]
  exact applyFix_noop tbl' profs _ _ _ hfalsy

theorem foldlM_items_inv : ∀ (items : List (Script × Nat))
    (its : List (String × PyDict Int Line)) (tbl : Table) (profs : List Profile) (pi : Nat),
    TblInv its tbl →
    (∀ item ∈ items, truthyInt item.1.sourced_count = false) →
    (∀ item ∈ items, (dictKeys (itemLines profs pi item.2)).Nodup) →
    TextAgree (its ++ items.map (fun item => (item.1.path, itemLines profs pi item.2))) →
    ∃ tbl', items.foldlM (fun a item => mergeOneScript a pi item) (tbl, profs)
        = .ok (tbl', profs) ∧
      TblInv (its ++ items.map (fun item => (item.1.path, itemLines profs pi item.2))) tbl' := by
  intro items
  induction items with
  | nil =>
      intro its tbl profs pi hinv _ _ _
      exact ⟨tbl, rfl, by rw [List.map_nil, List.append_nil]; exact hinv⟩
  | cons item rest ih =>
      intro its tbl profs pi hinv hf hn htext
      have hrec : its ++ (item :: rest).map
            (fun item => (item.1.path, itemLines profs pi item.2))
          = (its ++ [(item.1.path, itemLines profs pi item.2)]) ++ rest.map
            (fun item => (item.1.path, itemLines profs pi item.2)) := by
        rw [List.map_cons, List.append_cons]
      rw [hrec] at htext ⊢
      obtain ⟨tbl1, hrun1, hinv1⟩ := mergeOneScript_inv its tbl profs pi item hinv
        (hf item (List.mem_cons_self _ _)) (hn item (List.mem_cons_self _ _))
        (textAgree_append_left htext)
      obtain ⟨tbl', hrun2, hinv2⟩ := ih (its ++ [(item.1.path, itemLines profs pi item.2)])
        tbl1 profs pi hinv1 (fun x hx => hf x (List.mem_cons_of_mem _ hx))
        (fun x hx => hn x (List.mem_cons_of_mem _ hx)) htext
      refine ⟨tbl', ?_, hinv2⟩
      rw [List.foldlM_cons]
      simp only [bind, Except.bind]
      rw [hrun1]
      exact hrun2

theorem mergeProfile_inv (its : List (String × PyDict Int Line)) (tbl : Table)
    (profs : List Profile) (pi : Nat)
    (hinv : TblInv its tbl)
    (hfalsy : ∀ p ∈ profs, ∀ s ∈ p.scripts, truthyInt s.sourced_count = false)
    (hnodup : ∀ p ∈ profs, ∀ s ∈ p.scripts, (dictKeys s.lines).Nodup)
    (htext : TextAgree (its ++ profItemsIdx profs pi)) :
    ∃ tbl', mergeProfile (tbl, profs) pi = .ok (tbl', profs) ∧
      TblInv (its ++ profItemsIdx profs pi) tbl' := by
  unfold mergeProfile profItemsIdx at *
  rcases hg : profs.get? pi with _ | p <;> rw [hg] at htext <;> dsimp only at htext ⊢
  · exact ⟨tbl, rfl, by rw [List.append_nil]; exact hinv⟩
  · have hp : p ∈ profs := List.get?_mem hg
    refine foldlM_items_inv (dedupeScripts p.scripts) its tbl profs pi hinv ?_ ?_ htext
    · intro item hitem
      exact hfalsy p hp item.1 (dedupeScripts_key_mem p.scripts item hitem)
    · intro item hitem
      unfold itemLines
      rw [hg]
      dsimp only
      rcases hgs : p.scripts.get? item.2 with _ | s <;> dsimp only
      · exact List.nodup_nil
      · exact hnodup p hp s (List.get?_mem hgs)

theorem foldlM_mergeProfile_inv : ∀ (idxs : List Nat)
    (its : List (String × PyDict Int Line)) (tbl : Table) (profs : List Profile),
    TblInv its tbl →
    (∀ p ∈ profs, ∀ s ∈ p.scripts, truthyInt s.sourced_count = false) →
    (∀ p ∈ profs, ∀ s ∈ p.scripts, (dictKeys s.lines).Nodup) →
    TextAgree (its ++ (idxs.map (profItemsIdx profs)).flatten) →
    ∃ tbl', idxs.foldlM mergeProfile (tbl, profs) = .ok (tbl', profs) ∧
      TblInv (its ++ (idxs.map (profItemsIdx profs)).flatten) tbl' := by
  intro idxs
  induction idxs with
  | nil =>
      intro its tbl profs hinv _ _ _
      exact ⟨tbl, rfl, by rw [List.map_nil, List.flatten_nil, List.append_nil]; exact hinv⟩
  | cons i rest ih =>
      intro its tbl profs hinv hf hn htext
      have hrec : its ++ ((i :: rest).map (profItemsIdx profs)).flatten
          = (its ++ profItemsIdx profs i) ++ (rest.map (profItemsIdx profs)).flatten := by
        rw [List.map_cons, List.flatten_cons, List.append_assoc]
      rw [hrec] at htext ⊢
      obtain ⟨tbl1, hrun1, hinv1⟩ := mergeProfile_inv its tbl profs i hinv hf hn
        (textAgree_append_left htext)
      obtain ⟨tbl', hrun2, hinv2⟩ := ih (its ++ profItemsIdx profs i) tbl1 profs hinv1
        hf hn htext
      refine ⟨tbl', ?_, hinv2⟩
      rw [List.foldlM_cons]
      simp only [bind, Except.bind]
      rw [hrun1]
      exact hrun2

theorem range_map_profItemsIdx : ∀ (profs : List Profile),
    (List.range profs.length).map (profItemsIdx profs) = profs.map profItems := by
  intro profs
  induction profs with
  | nil => rfl
  | cons p rest ih =>
      rw [List.length_cons, List.range_succ_eq_map, List.map_cons, List.map_map,
        List.map_cons]
      congr 1

theorem TblInv_nil : TblInv [] ([] : Table) := by
  intro path
  refine ⟨⟨fun _ => rfl, fun _ => rfl⟩, ?_⟩
  intro l
  refine ⟨rfl, ?_⟩
  intro d e hd he
  exact Option.noConfusion hd

theorem mergedLinesFull_inv (profs : List Profile)
    (hfalsy : ∀ p ∈ profs, ∀ s ∈ p.scripts, truthyInt s.sourced_count = false)
    (hnodup : ∀ p ∈ profs, ∀ s ∈ p.scripts, (dictKeys s.lines).Nodup)
    (htext : TextAgree (allItems profs)) :
    ∃ tbl', mergedLinesFull profs = .ok (tbl', profs) ∧ TblInv (allItems profs) tbl' := by
  have hids : [] ++ ((List.range profs.length).map (profItemsIdx profs)).flatten
      = allItems profs := by
    rw [List.nil_append, range_map_profItemsIdx]
    rfl
  obtain ⟨tbl', hrun, hinv'⟩ := foldlM_mergeProfile_inv (List.range profs.length) [] []
    profs TblInv_nil hfalsy hnodup (by rw [hids]; exact htext)
  rw [hids] at hinv'
  exact ⟨tbl', hrun, hinv'⟩

/-- Claim C4, amended: when every script of both profiles has a falsy sourced
count (the first-line workaround, which runs per profile inside the merge loop
and mutates the partial table, never fires), the scripts' line dicts have
duplicate-free keys (as Python dicts do), and contribution texts agree per
`(path, line)`, merging `[P1, P2]` and `[P2, P1]` both succeed, leave the
profiles unchanged, and give the same count at every `(path, line)` — the
counts combine as `a + missing = a`, `missing + missing = missing`, otherwise
the sum (`cntAdd`-fold of the contributions).  The counterexample shows a
truthy sourced count makes the result order-dependent (6 vs 5). -/
theorem claim_C4_amended (p1 p2 : Profile)
    (hf1 : ∀ s ∈ p1.scripts, truthyInt s.sourced_count = false)
    (hf2 : ∀ s ∈ p2.scripts, truthyInt s.sourced_count = false)
    (hn1 : ∀ s ∈ p1.scripts, (dictKeys s.lines).Nodup)
    (hn2 : ∀ s ∈ p2.scripts, (dictKeys s.lines).Nodup)
    (htext : TextAgree (allItems [p1, p2])) :
    ∃ t12 t21,
      mergedLinesFull [p1, p2] = .ok (t12, [p1, p2]) ∧
      mergedLinesFull [p2, p1] = .ok (t21, [p2, p1]) ∧
      ∀ path l, countAt t12 path l = countAt t21 path l := by
  have hall12 : allItems [p1, p2] = profItems p1 ++ profItems p2 := by
    simp [allItems]
  have hall21 : allItems [p2, p1] = profItems p2 ++ profItems p1 := by
    simp [allItems]
  have hperm : ∀ path l, (contribsAt (allItems [p1, p2]) path l).Perm
      (contribsAt (allItems [p2, p1]) path l) := by
    intro path l
    rw [hall12, hall21, contribsAt_append, contribsAt_append]
    exact List.perm_append_comm
  have htext21 : TextAgree (allItems [p2, p1]) := textAgree_perm hperm htext
  have hmem2 : ∀ p ∈ [p1, p2], ∀ s ∈ p.scripts, truthyInt s.sourced_count = false := by
    intro p hp
    rcases List.mem_cons.mp hp with h | h
    · rw [h]; exact hf1
    · rw [List.mem_singleton.mp h]; exact hf2
  have hmem2' : ∀ p ∈ [p2, p1], ∀ s ∈ p.scripts, truthyInt s.sourced_count = false := by
    intro p hp
    rcases List.mem_cons.mp hp with h | h
    · rw [h]; exact hf2
    · rw [List.mem_singleton.mp h]; exact hf1
  have hnm2 : ∀ p ∈ [p1, p2], ∀ s ∈ p.scripts, (dictKeys s.lines).Nodup := by
    intro p hp
    rcases List.mem_cons.mp hp with h | h
    · rw [h]; exact hn1
    · rw [List.mem_singleton.mp h]; exact hn2
  have hnm2' : ∀ p ∈ [p2, p1], ∀ s ∈ p.scripts, (dictKeys s.lines).Nodup := by
    intro p hp
    rcases List.mem_cons.mp hp with h | h
    · rw [h]; exact hn2
    · rw [List.mem_singleton.mp h]; exact hn1
  obtain ⟨t12, hrun12, hinv12⟩ := mergedLinesFull_inv [p1, p2] hmem2 hnm2 htext
  obtain ⟨t21, hrun21, hinv21⟩ := mergedLinesFull_inv [p2, p1] hmem2' hnm2' htext21
  refine ⟨t12, t21, hrun12, hrun21, ?_⟩
  intro path l
  rw [((hinv12 path).2 l).1, ((hinv21 path).2 l).1]
  exact foldCounts_perm ((hperm path l).map Line.count)

theorem c4wTextAgree : TextAgree (allItems [c4wP1, c4wP2]) := by
  intro path l c1 c2 h1 h2
  have key : ∀ c : Line, c ∈ contribsAt (allItems [c4wP1, c4wP2]) path l →
      c.line = "let x=1" := by
    intro c hc
    have hall : allItems [c4wP1, c4wP2] =
        [("/w4.vim", [(1, { line := "let x=1", count := some 2 })]),
         ("/w4.vim", [(1, { line := "let x=1", count := some 3 })])] := by decide
    rw [hall] at hc
    unfold contribsAt at hc
    rcases List.mem_filterMap.mp hc with ⟨it, hit, hget⟩
    rcases List.mem_filter.mp hit with ⟨hmem, _⟩
    rcases List.mem_cons.mp hmem with h | h
    · subst h
      simp only [dictGet] at hget
      split at hget
      · injection hget with hget
        rw [← hget]
      · exact Option.noConfusion hget
    · rw [List.mem_singleton.mp h] at hget
      simp only [dictGet] at hget
      split at hget
      · injection hget with hget
        rw [← hget]
      · exact Option.noConfusion hget
  rw [key c1 h1, key c2 h2]

/-- Witness for C4's amended claim: same path, same text at line 1, counts 2
and 3; both merge orders succeed with equal per-line counts. -/
theorem claim_C4_amended_witness :
    ∃ t12 t21,
      mergedLinesFull [c4wP1, c4wP2] = .ok (t12, [c4wP1, c4wP2]) ∧
      mergedLinesFull [c4wP2, c4wP1] = .ok (t21, [c4wP2, c4wP1]) ∧
      ∀ path l, countAt t12 path l = countAt t21 path l :=
  claim_C4_amended c4wP1 c4wP2 (by decide) (by decide) (by decide) (by decide) c4wTextAgree

end Covimerage
